import Mathlib

/-!
Verification of the `prompt2agent` workflow specification model and execution
engine, as a shallow embedding in Lean 4.

The repository contains two cooperating families of modules:

* the dict-based orchestrator family (`prompt2agent/workflow/schema.py`,
  `prompt2agent/orchestrator/factory.py`,
  `prompt2agent/orchestrator/coordinator.py`,
  `prompt2agent/memory/short_term.py`), embedded below in namespace `Orch`;
* the pydantic/agents-SDK family (`prompt2agent/models.py`,
  `prompt2agent/compiler.py`, `prompt2agent/workflow.py`,
  `prompt2agent/tools.py`, `prompt2agent/runtime.py`), embedded below in
  namespace `Models`.

Python exceptions are modelled with `Except String`, raising being `.error`
with the raised message.  External effects (the language-model backend, the
Python `exec` primitive) are modelled as explicit oracle functions supplied as
parameters, so that every real execution trace corresponds to an instantiation
of the model.  File I/O (run-artifact persistence, logging) is not modelled:
it does not affect the values the claims are about.
-/

/-- Lookup in a string-keyed association list, the model of a Python dict
(first binding wins; the modelled dicts have unique keys wherever the
claims apply). -/
def alookup {β : Type} : List (String × β) → String → Option β
  | [], _ => none
  | (k, v) :: rest, key => if k = key then some v else alookup rest key

/-- Python `str.strip()`: remove leading and trailing whitespace
(`Char.isWhitespace` covers space, tab, carriage return and newline, the
whitespace the repository's strings contain). -/
def pyStrip (s : String) : String :=
  String.mk
    (((s.data.dropWhile Char.isWhitespace).reverse.dropWhile Char.isWhitespace).reverse)

namespace Orch

/-- The `context` dictionary passed to `AgentWrapper.run` by the coordinator:
`{"mode": "sequential"}` in sequential mode and
`{"mode": "peer", "iteration": i + 1}` in peer mode
(`orchestrator/coordinator.py`, lines 60 and 85). -/
structure Ctx where
  mode : String
  iteration : Option Nat
  deriving Repr, DecidableEq

/-- The dictionary returned by `AgentWrapper.run`
(`orchestrator/factory.py`, line 53):
`{"agent_id": self.id, "output": response, "context": context}`. -/
structure LogEntry where
  agent_id : String
  output : String
  context : Ctx
  deriving Repr, DecidableEq

/-- A runtime agent as seen by the coordinator.  `call inv attempt input` is
the outcome of the underlying `AgentWrapper.run` coroutine (the model-adapter
chat call together with memory bookkeeping) at invocation number `inv`
(in peer mode the 0-based iteration; in sequential mode always `0`), retry
attempt number `attempt`, on input text `input`: `some response` when the
coroutine returns `response`, `none` when it raises.  Because the
coordinator's schedule is deterministic, every concrete run of the Python
code is captured by some such oracle. -/
structure AgentW where
  id : String
  call : Nat → Nat → String → Option String

/-- Attempt loop of `_execute_agent` (`orchestrator/coordinator.py`,
lines 36-44): `remaining` counts the attempts still allowed out of
`total = retry_limit + 1`, `attempt` is the 0-based index of the next
attempt, and `calls` counts the underlying invocations made so far (returned
alongside the result so that the number of attempts is observable). -/
def executeAgentAux (agent : AgentW) (inv : Nat) (input_text : String)
    (context : Ctx) (total : Nat) :
    Nat → Nat → Nat → Except String LogEntry × Nat
  | _, 0, calls =>
    (Except.error ("Agent " ++ agent.id ++ " failed after " ++ toString total ++ " attempts"),
      calls)
  | attempt, remaining + 1, calls =>
    match agent.call inv attempt input_text with
    | some response =>
      (Except.ok { agent_id := agent.id, output := response, context := context }, calls + 1)
    | none => executeAgentAux agent inv input_text context total (attempt + 1) remaining (calls + 1)

/-- Model of `_execute_agent` (`orchestrator/coordinator.py`, lines 29-44): try the
agent up to `retry_limit + 1` times; on exhaustion raise
`RuntimeError(f"Agent {agent.id} failed after {retry_limit + 1} attempts")`.
The second component of the result is the number of attempts actually made. -/
def execute_agent (agent : AgentW) (inv : Nat) (input_text : String)
    (context : Ctx) (retry_limit : Nat) : Except String LogEntry × Nat :=
  executeAgentAux agent inv input_text context (retry_limit + 1) 0 (retry_limit + 1) 0

/-- Model of `_sequential_execution` (`orchestrator/coordinator.py`, lines 47-65),
loop body: each agent is invoked once (invocation index 0) on the current
input with context `{"mode": "sequential"}`; its output becomes the next
current input; the log accumulates one entry per agent. -/
def seqAux (retry_limit : Nat) (logs : List LogEntry) (current_input : String) :
    List AgentW → Except String (List LogEntry × String)
  | [] => Except.ok (logs, current_input)
  | agent :: rest =>
    match (execute_agent agent 0 current_input ⟨"sequential", none⟩ retry_limit).1 with
    | Except.error e => Except.error e
    | Except.ok entry => seqAux retry_limit (logs ++ [entry]) entry.output rest

/-- Model of `_sequential_execution` (`orchestrator/coordinator.py`, lines 47-65). -/
def sequential_execution (agents : List AgentW) (goal : String) (retry_limit : Nat) :
    Except String (List LogEntry × String) :=
  seqAux retry_limit [] goal agents

/-- One peer round (`asyncio.gather` over all agents,
`orchestrator/coordinator.py`, lines 80-90): every agent is invoked on the
same `shared_state` with context `{"mode": "peer", "iteration": iteration + 1}`;
a raising member makes the whole round (and hence the run) fail. -/
def peerGather (iteration : Nat) (shared_state : String) (retry_limit : Nat) :
    List AgentW → Except String (List LogEntry)
  | [] => Except.ok []
  | agent :: rest =>
    match (execute_agent agent iteration shared_state ⟨"peer", some (iteration + 1)⟩
        retry_limit).1 with
    | Except.error e => Except.error e
    | Except.ok entry =>
      (peerGather iteration shared_state retry_limit rest).map fun entries => entry :: entries

/-- Iteration loop of `_peer_execution` (`orchestrator/coordinator.py`,
lines 78-92): `remaining` iterations left, `iteration` the 0-based index of
the next one; after each round the members' outputs are newline-joined in
declaration order to form the next shared state. -/
def peerAux (agents : List AgentW) (retry_limit : Nat) :
    Nat → Nat → String → List LogEntry → Except String (List LogEntry × String)
  | _, 0, shared_state, logs => Except.ok (logs, shared_state)
  | iteration, remaining + 1, shared_state, logs =>
    match peerGather iteration shared_state retry_limit agents with
    | Except.error e => Except.error e
    | Except.ok results =>
      peerAux agents retry_limit (iteration + 1) remaining
        (String.intercalate "\n" (results.map (fun result => result.output)))
        (logs ++ results)

/-- Model of `_peer_execution` (`orchestrator/coordinator.py`, lines 68-93). -/
def peer_execution (agents : List AgentW) (goal : String) (retry_limit : Nat)
    (max_iterations : Nat) : Except String (List LogEntry × String) :=
  peerAux agents retry_limit 0 max_iterations goal []

end Orch

namespace Orch

/-- Model of `ShortTermMemoryBuffer` (`memory/short_term.py`) is a
`deque(maxlen=max_items)` of strings; we model its contents as the list of
retained items, oldest first. -/
structure ShortTermMemoryBuffer where
  max_items : Nat
  buffer : List String
  deriving Repr, DecidableEq

/-- Model of `ShortTermMemoryBuffer.__init__`: starts empty. -/
def ShortTermMemoryBuffer.init (max_items : Nat) : ShortTermMemoryBuffer :=
  { max_items := max_items, buffer := [] }

/-- Model of `ShortTermMemoryBuffer.add`: `deque.append` with `maxlen` silently
discards items from the left once the buffer is full, keeping the most
recent `max_items` entries. -/
def ShortTermMemoryBuffer.add (b : ShortTermMemoryBuffer) (item : String) :
    ShortTermMemoryBuffer :=
  { b with
    buffer :=
      (b.buffer ++ [item]).drop ((b.buffer ++ [item]).length - b.max_items) }

/-- Model of `ShortTermMemoryBuffer.extend`: add each item in turn. -/
def ShortTermMemoryBuffer.extendItems (b : ShortTermMemoryBuffer)
    (items : List String) : ShortTermMemoryBuffer :=
  items.foldl ShortTermMemoryBuffer.add b

/-- Model of `ShortTermMemoryBuffer.dump`: `list(self._buffer)`. -/
def ShortTermMemoryBuffer.dump (b : ShortTermMemoryBuffer) : List String :=
  b.buffer

end Orch

namespace Orch

/-- The `metadata` sub-dictionary of a workflow dictionary, restricted to the
string fields the validated code reads.  `none` models an absent key; the
empty string models a present-but-falsy value (`validate_workflow` tests
`not metadata.get(field)`, which identifies the two). -/
structure MetadataDict where
  id : Option String
  goal : Option String
  created_at : Option String
  deriving Repr, DecidableEq

/-- An agent entry of the `agents` array as inspected by the validator and
the factory.  Only `id` may be absent in the scenarios we model; `name` and
`instructions` are read unconditionally by `create_agents` on validated
workflows and are modelled as present. -/
structure AgentDict where
  id : Option String
  name : String
  instructions : String
  tools : List String
  memory : List String
  model : Option String
  deriving Repr, DecidableEq

/-- An entry of the workflow-level `tools` catalog (`name`/`type` keyed
dictionaries); only the name is consulted by `create_agents`. -/
structure ToolDict where
  name : String
  type : String
  deriving Repr, DecidableEq

/-- An entry of the workflow-level `memory` catalog.  `max_items` models
`config.get("max_items", 10)`; `none` means the key is absent. -/
structure MemoryDict where
  name : String
  type : String
  max_items : Option Nat
  deriving Repr, DecidableEq

/-- The `execution` sub-dictionary.  Absent keys are `none`; the coordinator
reads them with defaults (`mode` → `"sequential"`, `retry_limit` → `0`,
`max_iterations` → `1`). -/
structure ExecutionDict where
  mode : Option String
  retry_limit : Option Nat
  max_iterations : Option Nat
  deriving Repr, DecidableEq

/-- A workflow dictionary as consumed by `validate_workflow` and the
orchestrator.  `none` on `metadata`/`agents`/`execution` models the top-level
key being absent.  Values representable in this structure are always
JSON-serializable, so the `json.dumps` guard of `validate_workflow` never
fires on them and is not modelled. -/
structure WorkflowDict where
  metadata : Option MetadataDict
  agents : Option (List AgentDict)
  execution : Option ExecutionDict
  tools : List ToolDict
  memory : List MemoryDict
  deriving Repr, DecidableEq

/-- Model of `_validate_agent_ids` (`workflow/schema.py`, lines 99-108): walk the
agents, raising `WorkflowValidationError` on the first missing/falsy id or
the first id already seen; on success return the id list.  The accumulator
`ids` is the list built so far. -/
def validateAgentIds (ids : List String) :
    List AgentDict → Except String (List String)
  | [] => Except.ok ids
  | agent :: rest =>
    let agent_id := agent.id.getD ""
    if agent_id = "" then Except.error "Agent is missing an 'id'."
    else if agent_id ∈ ids then
      Except.error ("Duplicate agent id '" ++ agent_id ++ "'.")
    else validateAgentIds (ids ++ [agent_id]) rest

/-- Model of `_validate_agent_ids` entry point (empty accumulator). -/
def validate_agent_ids (agents : List AgentDict) : Except String (List String) :=
  validateAgentIds [] agents

/-- The errors contributed by the `for field in ("metadata", "agents",
"execution")` presence loop of `validate_workflow`. -/
def missingFieldErrors (w : WorkflowDict) : List String :=
  (if w.metadata.isNone then ["Missing required field 'metadata'."] else []) ++
    (if w.agents.isNone then ["Missing required field 'agents'."] else []) ++
      (if w.execution.isNone then ["Missing required field 'execution'."] else [])

/-- The errors contributed by the metadata-field loop of
`validate_workflow` (`metadata.get(field)` falsy check). -/
def metadataErrors (w : WorkflowDict) : List String :=
  let metadata := w.metadata.getD ⟨none, none, none⟩
  (if metadata.id.getD "" = "" then ["metadata.id is required"] else []) ++
    (if metadata.goal.getD "" = "" then ["metadata.goal is required"] else []) ++
      (if metadata.created_at.getD "" = "" then ["metadata.created_at is required"] else [])

/-- The errors contributed by the agents block of `validate_workflow`:
fewer than two agents is one error; otherwise the single first error (if
any) raised by `_validate_agent_ids`. -/
def agentsErrors (w : WorkflowDict) : List String :=
  let agents := w.agents.getD []
  if agents.length < 2 then ["At least two agent definitions are required"]
  else
    match validate_agent_ids agents with
    | Except.error e => [e]
    | Except.ok _ => []

/-- The error contributed by the `execution.mode` check of
`validate_workflow`. -/
def modeErrors (w : WorkflowDict) : List String :=
  let execution := w.execution.getD ⟨none, none, none⟩
  if execution.mode.getD "" = "sequential" ∨ execution.mode.getD "" = "peer" then []
  else ["execution.mode must be 'sequential' or 'peer'"]

/-- Model of `validate_workflow` (`workflow/schema.py`, lines 111-143): append the
errors of each check group in program order and succeed iff none
accumulated.  (The `mode not in {"sequential", "peer"}` test is modelled on
`execution.get("mode")` with absent mapped to `""`, which is likewise not in
the set.) -/
def validate_workflow (w : WorkflowDict) : Bool × List String :=
  let errors :=
    missingFieldErrors w ++ metadataErrors w ++ agentsErrors w ++ modeErrors w
  (errors.length = 0, errors)

end Orch

namespace Orch

/-- A resolved tool as stored by the factory: the registry's
`ToolDefinition` is identified by its registered name (its callable is
irrelevant to the orchestration claims). -/
structure ToolDefinition where
  name : String
  deriving Repr, DecidableEq

/-- Model of `build_tool_registry` (`orchestrator/factory.py`, lines 59-62) registers
exactly one tool, `web_search`. -/
def registryNames : List String := ["web_search"]

/-- Model of `ToolRegistry.get` (`tools/base.py`, lines 35-38): raises `KeyError`
for a name that was never registered. -/
def registryGet (name : String) : Except String ToolDefinition :=
  if name ∈ registryNames then Except.ok { name := name }
  else Except.error ("Tool '" ++ name ++ "' is not registered")

/-- The runtime `AgentWrapper` as built by `create_agents`
(`orchestrator/factory.py`, lines 22-32 and 106-114), with its resolved
tool and memory dictionaries modelled as association lists in insertion
order. -/
structure AgentWrapperR where
  id : String
  name : String
  instructions : String
  tools : List (String × ToolDefinition)
  memory : List (String × ShortTermMemoryBuffer)
  model_override : Option String
  deriving Repr, DecidableEq

/-- Body of `instantiate_memory` for a single catalog entry
(`orchestrator/factory.py`, lines 73-81): unsupported types raise;
`max_items` defaults to 10. -/
def instantiateMemoryEntry (entry : MemoryDict) : Except String ShortTermMemoryBuffer :=
  if entry.type ≠ "short_term" then
    Except.error ("Unsupported memory type: " ++ entry.type)
  else Except.ok (ShortTermMemoryBuffer.init (entry.max_items.getD 10))

/-- The `agent_tools` dict comprehension of `create_agents`
(`orchestrator/factory.py`, lines 96-100): a referenced name absent from the
workflow-level catalog is silently skipped; a name present in the catalog is
looked up in the registry, which may raise. -/
def resolveAgentTools (tool_config_names : List String) (refs : List String) :
    Except String (List (String × ToolDefinition)) :=
  (refs.filter (fun name => name ∈ tool_config_names)).mapM fun name =>
    (registryGet name).map fun definition => (name, definition)

/-- The `agent_memory` dict comprehension of `create_agents`
(`orchestrator/factory.py`, lines 101-105): a referenced name absent from
the memory catalog is silently skipped; a present one is instantiated from
its catalog entry, which may raise on an unsupported type. -/
def resolveAgentMemory (memory_configs : List MemoryDict) (refs : List String) :
    Except String (List (String × ShortTermMemoryBuffer)) :=
  (refs.filter (fun name => (memory_configs.find? (fun m => m.name = name)).isSome)).mapM
    fun name =>
      match memory_configs.find? (fun m => m.name = name) with
      | some entry => (instantiateMemoryEntry entry).map fun buffer => (name, buffer)
      | none => Except.error "unreachable"

/-- One iteration of the agent loop of `create_agents`
(`orchestrator/factory.py`, lines 95-116): `agent_def["id"]` raises
`KeyError` when the key is absent. -/
def createAgent (tool_config_names : List String) (memory_configs : List MemoryDict)
    (agent_def : AgentDict) : Except String AgentWrapperR := do
  let tools ← resolveAgentTools tool_config_names agent_def.tools
  let memory ← resolveAgentMemory memory_configs agent_def.memory
  match agent_def.id with
  | none => Except.error "KeyError: 'id'"
  | some agent_id =>
    Except.ok
      { id := agent_id, name := agent_def.name, instructions := agent_def.instructions,
        tools := tools, memory := memory, model_override := agent_def.model }

/-- Model of `create_agents` (`orchestrator/factory.py`, lines 84-117): build one
`AgentWrapper` per declared agent.  The Python function returns a dict keyed
by agent id; we return the association list in declaration order (identical
lookup behaviour once agent ids are unique, which validation guarantees on
every workflow the coordinator runs). -/
def create_agents (w : WorkflowDict) : Except String (List (String × AgentWrapperR)) :=
  let tool_config_names := w.tools.map (fun t => t.name)
  match w.agents with
  | none => Except.error "KeyError: 'agents'"
  | some agent_defs =>
    agent_defs.mapM fun agent_def =>
      (createAgent tool_config_names w.memory agent_def).map fun wrapper =>
        (wrapper.id, wrapper)

/-- Model of `run_workflow` (`orchestrator/coordinator.py`, lines 96-120), modelled up
to the returned `(logs, result)` pair: validate, instantiate the agents,
pick the execution mode, and run.  Artifact persistence (lines 119 and
123-146) is pure file I/O of the already-computed values and is not
modelled.  `mkCall` is the behaviour oracle of each instantiated agent,
keyed by its id (see `AgentW.call`).  The validation-failure message embeds
the error list joined with `; ` in place of Python's list repr. -/
def run_workflow (w : WorkflowDict) (mkCall : String → Nat → Nat → String → Option String) :
    Except String (List LogEntry × String) := do
  let (valid, errors) := validate_workflow w
  if ¬ valid then
    Except.error ("Workflow validation failed: " ++ String.intercalate "; " errors)
  else do
    let _ ← create_agents w
    let ordered_agents := (w.agents.getD []).map fun agent_def =>
      AgentW.mk (agent_def.id.getD "") (mkCall (agent_def.id.getD ""))
    let execution := w.execution.getD ⟨some "sequential", none, none⟩
    let mode := execution.mode.getD "sequential"
    let goal := (w.metadata.getD ⟨none, none, none⟩).goal.getD ""
    let retry_limit := execution.retry_limit.getD 0
    if mode = "peer" then
      peer_execution ordered_agents goal retry_limit (execution.max_iterations.getD 1)
    else
      sequential_execution ordered_agents goal retry_limit

end Orch

namespace Models

/-- The closed `kind` literal of `ToolSpec`
(`models.py`, line 21: `Literal["web_search", "agent_tool", "python_repl"]`). -/
inductive ToolKind where
  | web_search
  | agent_tool
  | python_repl
  deriving Repr, DecidableEq

/-- Model of `ToolSpec` (`models.py`, lines 18-38).  The free-form `config` dict is
omitted: no code path exercised by the claims reads it (it only tunes
strict-JSON flags and `max_turns` on the built tool). -/
structure ToolSpec where
  kind : ToolKind
  description : String
  name : String
  target_agent : Option String
  deriving Repr, DecidableEq

/-- The pydantic field validator `_validate_target_for_agent_tool`
(`models.py`, lines 30-38): an `agent_tool` entry must declare a truthy
`target_agent`. -/
def ToolSpec.validatorOk (t : ToolSpec) : Prop :=
  t.kind = ToolKind.agent_tool → t.target_agent.getD "" ≠ ""

instance (t : ToolSpec) : Decidable t.validatorOk := by
  unfold ToolSpec.validatorOk; infer_instance

/-- Model of `AgentPlan` (`models.py`, lines 48-65).  `capabilities` and `handoffs`
are carried through compilation unchanged and are omitted. -/
structure AgentPlan where
  key : String
  name : String
  summary : String
  instructions : String
  tools : List ToolSpec
  final : Bool
  deriving Repr, DecidableEq

/-- Model of `WorkflowPlan` (`models.py`, lines 68-94). -/
structure WorkflowPlan where
  title : String
  summary : String
  entrypoint : String
  max_turns : Nat
  agents : List AgentPlan
  deriving Repr, DecidableEq

/-- The pydantic validators of `WorkflowPlan` (`models.py`, lines 82-94):
`_ensure_unique_keys` (agent keys unique within a plan) and
`_validate_entrypoint` (the entrypoint references a declared agent key). -/
def WorkflowPlan.validatorOk (p : WorkflowPlan) : Prop :=
  (p.agents.map AgentPlan.key).Nodup ∧ p.entrypoint ∈ p.agents.map AgentPlan.key

/-- Model of `AgentSpec` (`models.py`, lines 110-123), the materialised agent stored
in the workflow specification. -/
structure AgentSpec where
  key : String
  name : String
  summary : String
  instructions : String
  handoff_description : Option String
  model : Option String
  tools : List ToolSpec
  final : Bool
  deriving Repr, DecidableEq

/-- Model of `WorkflowMetadata` (`models.py`, lines 97-107); `created_at` is a
wall-clock timestamp and is omitted. -/
structure WorkflowMetadata where
  spec_id : String
  title : String
  summary : String
  source_prompt : String
  default_model : String
  deriving Repr, DecidableEq

/-- Model of `ExecutionSpec` (`models.py`, lines 126-130). -/
structure ExecutionSpec where
  entrypoint : String
  max_turns : Nat
  deriving Repr, DecidableEq

/-- Model of `WorkflowSpec` (`models.py`, lines 133-140). -/
structure WorkflowSpec where
  metadata : WorkflowMetadata
  agents : List AgentSpec
  execution : ExecutionSpec
  deriving Repr, DecidableEq

/-- Model of `_ensure_tool_defaults` (`compiler.py`, lines 67-70): a `web_search`
tool with a falsy name gets the name `web_search`. -/
def ensure_tool_defaults (tool : ToolSpec) : ToolSpec :=
  if tool.kind = ToolKind.web_search ∧ tool.name = "" then
    { tool with name := "web_search" }
  else tool

/-- Model of `_plan_agent_to_spec` (`compiler.py`, lines 54-64). -/
def plan_agent_to_spec (plan : AgentPlan) : AgentSpec :=
  { key := plan.key, name := plan.name, summary := plan.summary,
    instructions := plan.instructions, handoff_description := some plan.summary,
    model := none, tools := plan.tools.map ensure_tool_defaults, final := plan.final }

/-- The promotion loop of `_plan_to_spec` (`compiler.py`, lines 36-39):
mark the first agent whose key equals the entrypoint as final and stop. -/
def promoteEntrypoint (entrypoint : String) : List AgentSpec → List AgentSpec
  | [] => []
  | agent :: rest =>
    if agent.key = entrypoint then { agent with final := true } :: rest
    else agent :: promoteEntrypoint entrypoint rest

/-- Model of `_plan_to_spec` (`compiler.py`, lines 31-51).  `spec_id` stands for the
generated `uuid.uuid4().hex`; `provider_model` for `provider.model_id`. -/
def plan_to_spec (plan : WorkflowPlan) (prompt : String) (spec_id : String)
    (provider_model : String) : WorkflowSpec :=
  let agents := plan.agents.map plan_agent_to_spec
  let agents :=
    if agents.any AgentSpec.final then agents
    else promoteEntrypoint plan.entrypoint agents
  { metadata :=
      { spec_id := spec_id, title := plan.title, summary := plan.summary,
        source_prompt := prompt, default_model := provider_model },
    agents := agents,
    execution := { entrypoint := plan.entrypoint, max_turns := plan.max_turns } }

end Models

namespace Models

/-- A built runtime tool (`agents.Tool`).  `webSearch` and `pythonRepl` are
the immediately-resolvable kinds; `agentAsTool` is the callable wrapper
produced by `Agent.as_tool` in `attach_agent_tools`, recorded with its
computed name and description (invoking it delegates to the wrapped target
agent). -/
inductive Tool where
  | webSearch
  | pythonRepl
  | agentAsTool (name : String) (description : String)
  deriving Repr, DecidableEq

/-- A runtime `agents.Agent` as constructed by `build_agents`
(`workflow.py`, lines 47-53). -/
structure RAgent where
  name : String
  handoff_description : String
  instructions : String
  tools : List Tool
  model : String
  deriving Repr, DecidableEq

/-- Model of `ToolBuildResult` (`tools.py`, lines 63-66). -/
structure ToolBuildResult where
  tools : List Tool
  deferred_agent_tools : List (ToolSpec × String)
  deriving Repr, DecidableEq

/-- Model of `build_base_tools` (`tools.py`, lines 107-123): `web_search` and
`python_repl` resolve immediately; `agent_tool` requires a truthy
`target_agent` and is deferred.  The trailing `Unsupported tool kind` raise
is unreachable here because `ToolKind` is the closed literal type. -/
def build_base_tools (spec : ToolSpec) : Except String ToolBuildResult :=
  match spec.kind with
  | ToolKind.web_search => Except.ok { tools := [Tool.webSearch], deferred_agent_tools := [] }
  | ToolKind.python_repl => Except.ok { tools := [Tool.pythonRepl], deferred_agent_tools := [] }
  | ToolKind.agent_tool =>
    if spec.target_agent.getD "" = "" then
      Except.error "agent_tool requires a target_agent"
    else
      Except.ok { tools := [], deferred_agent_tools := [(spec, spec.target_agent.getD "")] }

/-- Model of `_slugify` (`tools.py`, lines 126-128):
`re.sub(r"[^a-zA-Z0-9]+", "_", value).strip("_")` replaces every maximal
run of non-alphanumeric characters by one underscore and strips underscores
at both ends, which is the same as joining the maximal alphanumeric groups
with single underscores; then lower-case, with fallback `agent_tool` for an
empty result. -/
def slugify (value : String) : String :=
  let groups := (value.toList.splitOnP (fun c => ¬ c.isAlphanum)).filter (fun g => g ≠ [])
  let cleaned := String.mk (List.intercalate ['_'] groups)
  if cleaned.toLower = "" then "agent_tool" else cleaned.toLower

/-- Model of `attach_agent_tools` (`tools.py`, lines 131-156): compute the wrapper's
name and description (falling back to a slug of the target's name and a
`Delegate to …` blurb), build `target.as_tool(...)` and append it to the
owner's tool list.  The `max_turns`/strict-JSON configuration transfers are
omitted along with `config` (see `ToolSpec`). -/
def attach_agent_tools (owner : RAgent) (spec : ToolSpec) (target : RAgent) : RAgent :=
  let tool_name := if spec.name = "" then slugify (target.name ++ "_tool") else spec.name
  let tool_description :=
    if spec.description = "" then "Delegate to " ++ target.name ++ "." else spec.description
  { owner with tools := owner.tools ++ [Tool.agentAsTool tool_name tool_description] }

/-- The inner tool loop of `build_agents` pass one (`workflow.py`,
lines 40-45): resolve every declared tool of one agent, concatenating the
immediate tools and the deferred `agent_tool` bindings in order. -/
def buildAgentTools : List ToolSpec →
    Except String (List Tool × List (ToolSpec × String))
  | [] => Except.ok ([], [])
  | tool_spec :: rest => do
    let result ← build_base_tools tool_spec
    let (tools, deferred) ← buildAgentTools rest
    Except.ok (result.tools ++ tools, result.deferred_agent_tools ++ deferred)

/-- Pass one of `build_agents` (`workflow.py`, lines 39-54): one runtime
agent per `AgentSpec` (effective model = per-agent override or the
provider's), collecting deferred bindings tagged with their owner's key.
The Python `agents` dict keyed by agent key is modelled as an association
list in insertion order. -/
def buildAgentsPass1 (provider_model : String) :
    List AgentSpec → Except String (List (String × RAgent) × List (String × ToolSpec × String))
  | [] => Except.ok ([], [])
  | agent_spec :: rest => do
    let (base_tools, deferred) ← buildAgentTools agent_spec.tools
    let agent : RAgent :=
      { name := agent_spec.name, handoff_description := agent_spec.summary,
        instructions := agent_spec.instructions, tools := base_tools,
        model := agent_spec.model.getD provider_model }
    let (agents, deferred_rest) ← buildAgentsPass1 provider_model rest
    Except.ok ((agent_spec.key, agent) :: agents,
      (deferred.map (fun d => (agent_spec.key, d.1, d.2))) ++ deferred_rest)

/-- Association-list update standing in for mutating the `Agent` object
stored under `key` in the Python dict. -/
def updateAgent (agents : List (String × RAgent)) (key : String)
    (f : RAgent → RAgent) : List (String × RAgent) :=
  agents.map fun entry => if entry.1 = key then (entry.1, f entry.2) else entry

/-- Pass two of `build_agents` (`workflow.py`, lines 56-62): for every
deferred binding look the target up in the completed agent map — raising
`KeyError(f"Agent tool target '{target_key}' is missing from the
specification.")` when absent — and attach the agent-as-tool wrapper to the
owner. -/
def buildAgentsPass2 :
    List (String × ToolSpec × String) → List (String × RAgent) →
    Except String (List (String × RAgent))
  | [], agents => Except.ok agents
  | (owner_key, tool_spec, target_key) :: rest, agents =>
    match alookup agents target_key with
    | none =>
      Except.error
        ("Agent tool target '" ++ target_key ++ "' is missing from the specification.")
    | some target =>
      buildAgentsPass2 rest (updateAgent agents owner_key
        (fun owner => attach_agent_tools owner tool_spec target))

/-- Model of `build_agents` (`workflow.py`, lines 35-64). -/
def build_agents (spec : WorkflowSpec) (provider_model : String) :
    Except String (List (String × RAgent)) := do
  let (agents, deferred_tools) ← buildAgentsPass1 provider_model spec.agents
  buildAgentsPass2 deferred_tools agents

end Models

namespace Models

/-- Model of `_is_tool_capability_error` (`runtime.py`, lines 78-80): substring test
on the lowered error message. -/
def is_tool_capability_error (message : String) : Bool :=
  decide ("support tool use".toList <:+: message.toLower.toList) ||
    decide ("tool use".toList <:+: message.toLower.toList)

/-- Outcome of the `Runner.run_sync` call in `run_workflow` (`runtime.py`,
lines 96-101): a final output, a `NotFoundError` (the only class caught), or
any other raised error. -/
inductive RunnerOutcome where
  | ok (final_output : String)
  | notFoundError (message : String)
  | otherError (message : String)
  deriving Repr, DecidableEq

/-- Model of `_run_single_agent_fallback` (`runtime.py`, lines 35-75), modelled from
the synthesized single agent's `Runner.run_sync` outcome onward
(`runner_result`; `.error` is an exception raised by the runner, which
propagates): a blank final output raises `ValueError("Fallback execution
completed without a final answer.")`, otherwise the output is returned. -/
def run_single_agent_fallback (runner_result : Except String String) :
    Except String String := do
  let output ← runner_result
  if pyStrip output = "" then
    Except.error "Fallback execution completed without a final answer."
  else Except.ok output

/-- Model of `run_workflow` (`runtime.py`, lines 83-117): on a `NotFoundError` that
looks like a tool-capability error, degrade to the single-agent fallback;
any other error propagates; a normal completion whose output is empty or
whitespace-only raises `ValueError("Workflow execution completed without a
final answer.")`.  (`str(output)` coercion of non-string outputs is
absorbed into the typed model.) -/
def run_workflow (runner_result : RunnerOutcome)
    (fallback_runner_result : Except String String) : Except String String :=
  match runner_result with
  | RunnerOutcome.notFoundError message =>
    if is_tool_capability_error message then
      run_single_agent_fallback fallback_runner_result
    else Except.error message
  | RunnerOutcome.otherError message => Except.error message
  | RunnerOutcome.ok final_output =>
    if pyStrip final_output = "" then
      Except.error "Workflow execution completed without a final answer."
    else Except.ok final_output

end Models

namespace Models

/-- Longest common prefix of two character lists (the `margin` reduction of
`textwrap.dedent`). -/
def commonPrefix : List Char → List Char → List Char
  | [], _ => []
  | _, [] => []
  | a :: as_, b :: bs => if a = b then a :: commonPrefix as_ bs else []

/-- True on space/tab, the characters `textwrap.dedent` treats as
indentation. -/
def isIndentChar (c : Char) : Bool := c = ' ' || c = '\t'

/-- Model of `textwrap.dedent`, step 1: a line consisting solely of spaces/tabs (and
at least one of them) is replaced by an empty line. -/
def normalizeLine (line : List Char) : List Char :=
  if line ≠ [] ∧ line.all isIndentChar then [] else line

/-- Model of `textwrap.dedent`, step 2: the leading space/tab prefix of each line
that has further content contributes to the margin. -/
def lineIndent (line : List Char) : Option (List Char) :=
  if line.dropWhile isIndentChar = [] then none
  else some (line.takeWhile isIndentChar)

/-- Model of `textwrap.dedent`, margin removal: a line starting with the margin loses
it (the regex `^margin` leaves other lines, in particular empty ones,
unchanged). -/
def stripMargin (margin : List Char) (line : List Char) : List Char :=
  if margin.isPrefixOf line then line.drop margin.length else line

/-- Model of `textwrap.dedent` (as called by `python_repl`, `tools.py` line 47):
normalize whitespace-only lines, compute the longest common space/tab
margin of the content lines, and strip it. -/
def dedent (text : String) : String :=
  let lines := (text.data.splitOn '\n').map normalizeLine
  let indents := lines.filterMap lineIndent
  let margin :=
    match indents with
    | [] => []
    | first :: rest => rest.foldl commonPrefix first
  String.mk (List.intercalate ['\n'] (lines.map (stripMargin margin)))

/-- The Python `exec` primitive and `ast.parse`, as an oracle.  `parse code`
is `none` when `ast.parse(code)` succeeds and `some message` when it raises
`SyntaxError(message)`.  `exec builtins code` is the local namespace (name ↦
`str` of value) left by `exec(code, {"__builtins__": builtins}, local_ns)`,
or `.error` when the executed snippet raises. -/
structure PyInterp where
  parse : String → Option String
  exec : List String → String → Except String (List (String × String))

/-- Model of `_SAFE_GLOBALS` (`tools.py`, lines 18-31): the whitelist of built-in
names exposed to the sandboxed snippet. -/
def SAFE_BUILTINS : List String :=
  ["abs", "min", "max", "sum", "len", "range", "enumerate", "sorted"]

/-- Model of `python_repl` (`tools.py`, lines 36-60): dedent and strip the snippet;
an empty cleaned snippet returns `""`; a snippet that fails to parse raises
`ValueError(f"Invalid Python snippet: {exc}")` before any execution; the
snippet is executed against the safe built-ins only, runtime errors
propagating; the designated `result` variable, if assigned, is returned,
otherwise the placeholder message.  (The non-string-input guard of line 44
is absorbed into the typed model.) -/
def python_repl (interp : PyInterp) (code : String) : Except String String :=
  let cleaned := pyStrip (dedent code)
  if cleaned = "" then Except.ok ""
  else
    match interp.parse cleaned with
    | some message => Except.error ("Invalid Python snippet: " ++ message)
    | none => do
      let local_ns ← interp.exec SAFE_BUILTINS cleaned
      match alookup local_ns "result" with
      | some value => Except.ok value
      | none => Except.ok "Snippet executed. Define `result` to provide an explicit answer."

end Models

namespace Orch

/-- Closed form of a successful sequential run, following the spec's
pipeline description: the first agent receives the input, each agent's
output becomes the next agent's input, every step logs one entry with the
sequential context, and the final result is the last output (the input when
there are no agents).  `F agent input` is the output the agent's underlying
call produces on `input`. -/
def seqPipeline (F : AgentW → String → String) (input : String) :
    List AgentW → List LogEntry × String
  | [] => ([], input)
  | agent :: rest =>
    let output := F agent input
    let next := seqPipeline F output rest
    ({ agent_id := agent.id, output := output, context := ⟨"sequential", none⟩ } :: next.1,
      next.2)

/-- Closed form of the shared input of peer iteration `t` (0-based),
following the spec: the goal for the first iteration, afterwards the
newline-join, in declaration order, of the previous iteration's outputs.
`F agent t input` is the output of the agent at iteration `t` on `input`. -/
def sharedAt (F : AgentW → Nat → String → String) (agents : List AgentW) (goal : String) :
    Nat → String
  | 0 => goal
  | t + 1 =>
    String.intercalate "\n" (agents.map fun agent => F agent t (sharedAt F agents goal t))

/-- Closed form of the log entries of peer iteration `t`: one entry per
agent in declaration order, all against the same shared input, with the
1-based iteration number in the context. -/
def peerRoundLog (F : AgentW → Nat → String → String) (agents : List AgentW)
    (goal : String) (t : Nat) : List LogEntry :=
  agents.map fun agent =>
    { agent_id := agent.id, output := F agent t (sharedAt F agents goal t),
      context := ⟨"peer", some (t + 1)⟩ }

end Orch

namespace Orch

/-- Closed form of the resolved tool dictionary `create_agents` builds for
one agent: the declared references that appear in the workflow-level tool
catalog, each paired with its registry definition. -/
def resolvedToolsOf (tool_config_names : List String) (agent_def : AgentDict) :
    List (String × ToolDefinition) :=
  (agent_def.tools.filter (fun name => name ∈ tool_config_names)).map
    fun name => (name, { name := name })

/-- Closed form of the resolved memory dictionary `create_agents` builds for
one agent: the declared references that appear in the memory catalog, each
instantiated as an empty buffer with the catalog entry's `max_items`. -/
def resolvedMemoryOf (memory_configs : List MemoryDict) (agent_def : AgentDict) :
    List (String × ShortTermMemoryBuffer) :=
  (agent_def.memory.filter
      (fun name => (memory_configs.find? (fun m => m.name = name)).isSome)).map
    fun name =>
      match memory_configs.find? (fun m => m.name = name) with
      | some entry => (name, ShortTermMemoryBuffer.init (entry.max_items.getD 10))
      | none => (name, ShortTermMemoryBuffer.init 10)

/-- Closed form of the `AgentWrapper` built for one agent definition. -/
def wrapperOf (tool_config_names : List String) (memory_configs : List MemoryDict)
    (agent_def : AgentDict) : AgentWrapperR :=
  { id := agent_def.id.getD "", name := agent_def.name,
    instructions := agent_def.instructions,
    tools := resolvedToolsOf tool_config_names agent_def,
    memory := resolvedMemoryOf memory_configs agent_def,
    model_override := agent_def.model }

end Orch

namespace Models

/-- The immediately-resolvable tools of a tool-spec list (pass one of the
two-pass build): `web_search` and `python_repl` in declaration order,
`agent_tool` contributing nothing. -/
def immediateTools (tool_specs : List ToolSpec) : List Tool :=
  tool_specs.flatMap fun t =>
    match t.kind with
    | ToolKind.web_search => [Tool.webSearch]
    | ToolKind.python_repl => [Tool.pythonRepl]
    | ToolKind.agent_tool => []

/-- The deferred `agent_tool` bindings of one tool-spec list, each paired
with its target key. -/
def deferredPairs (tool_specs : List ToolSpec) : List (ToolSpec × String) :=
  (tool_specs.filter (fun t => t.kind = ToolKind.agent_tool)).map
    fun t => (t, t.target_agent.getD "")

/-- All deferred bindings of a specification, tagged with their owner's
key, in declaration order. -/
def deferredOf (agents : List AgentSpec) : List (String × ToolSpec × String) :=
  agents.flatMap fun s => (deferredPairs s.tools).map fun d => (s.key, d.1, d.2)

/-- The runtime agent pass one constructs for one `AgentSpec` (deferred
bindings not yet attached). -/
def agentOf (provider_model : String) (s : AgentSpec) : RAgent :=
  { name := s.name, handoff_description := s.summary, instructions := s.instructions,
    tools := immediateTools s.tools, model := s.model.getD provider_model }

/-- The name `attach_agent_tools` gives the agent-as-tool wrapper, given the
target agent's display name. -/
def wrapperToolName (spec : ToolSpec) (target_name : String) : String :=
  if spec.name = "" then slugify (target_name ++ "_tool") else spec.name

/-- The description `attach_agent_tools` gives the agent-as-tool wrapper. -/
def wrapperToolDescription (spec : ToolSpec) (target_name : String) : String :=
  if spec.description = "" then "Delegate to " ++ target_name ++ "." else spec.description

end Models

section Theorems

open Orch Models

/-- Keeping the last `n` elements is idempotent across appends: keeping the
last `n` of (last `n` of `l`, then `r`) is keeping the last `n` of
`l ++ r`. -/
theorem drop_keepLast_append {α : Type} (n : Nat) (l r : List α) :
    ((l.drop (l.length - n)) ++ r).drop (((l.drop (l.length - n)) ++ r).length - n) =
      (l ++ r).drop ((l ++ r).length - n) := by
  rcases Nat.le_total l.length n with h | h
  · simp [Nat.sub_eq_zero_of_le h]
  · have hdl : (l.drop (l.length - n)).length = n := by
      simp [List.length_drop]
      omega
    rw [List.length_append, hdl, List.length_append]
    rw [List.drop_append_eq_append_drop, List.drop_append_eq_append_drop]
    rw [hdl]
    rw [List.drop_drop]
    congr 1
    · congr 1
      omega
    · congr 1
      omega

/-- Adding items one by one to a buffer whose contents fit its capacity
keeps exactly the most recent `max_items` of everything ever appended. -/
theorem extendItems_closed (n : Nat) (buf items : List String) (h : buf.length ≤ n) :
    (ShortTermMemoryBuffer.mk n buf).extendItems items =
      ShortTermMemoryBuffer.mk n ((buf ++ items).drop ((buf ++ items).length - n)) := by
  induction items generalizing buf with
  | nil =>
    simp [ShortTermMemoryBuffer.extendItems, Nat.sub_eq_zero_of_le h]
  | cons i rest ih =>
    have hstep :
        (ShortTermMemoryBuffer.mk n buf).extendItems (i :: rest) =
          (ShortTermMemoryBuffer.mk n
            ((buf ++ [i]).drop ((buf ++ [i]).length - n))).extendItems rest := by
      simp [ShortTermMemoryBuffer.extendItems, ShortTermMemoryBuffer.add]
    rw [hstep, ih]
    · rw [drop_keepLast_append]
      simp
    · simp [List.length_drop]
      omega

/-- Claim C10: a `ShortTermMemoryBuffer` with capacity `n`, after any
sequence of `add` operations, dumps at most `n` items, and those are
exactly the most recently added entries in insertion order (`add` is total
in the model — the Python `deque.append` never raises — and older entries
are dropped silently). -/
theorem c10_short_term_memory_ring (n : Nat) (items : List String) :
    ((ShortTermMemoryBuffer.init n).extendItems items).dump =
        items.drop (items.length - n) ∧
      ((ShortTermMemoryBuffer.init n).extendItems items).dump.length ≤ n := by
  have h := extendItems_closed n [] items (by simp)
  have hdump : ((ShortTermMemoryBuffer.init n).extendItems items).dump =
      items.drop (items.length - n) := by
    simp [ShortTermMemoryBuffer.init] at h
    simp [ShortTermMemoryBuffer.init, h, ShortTermMemoryBuffer.dump]
  refine ⟨hdump, ?_⟩
  rw [hdump]
  simp [List.length_drop]
  omega

/-- An agent whose underlying call always raises makes the attempt loop
consume every remaining attempt and raise the exhaustion error. -/
theorem executeAgentAux_all_fail (agent : AgentW) (inv : Nat) (input : String)
    (ctx : Ctx) (total : Nat) (h : ∀ n, agent.call inv n input = none) :
    ∀ remaining attempt calls,
      executeAgentAux agent inv input ctx total attempt remaining calls =
        (Except.error ("Agent " ++ agent.id ++ " failed after " ++ toString total ++
          " attempts"), calls + remaining) := by
  intro remaining
  induction remaining with
  | zero => intro attempt calls; rfl
  | succ k ih =>
    intro attempt calls
    show executeAgentAux agent inv input ctx total attempt (k + 1) calls = _
    rw [executeAgentAux, h attempt, ih (attempt + 1) (calls + 1)]
    have hc : calls + 1 + k = calls + (k + 1) := by omega
    rw [hc]

/-- Claim C3: for every agent and every `retry_limit ≥ 0` (a `Nat` here), an
invocation whose underlying call always raises is attempted exactly
`retry_limit + 1` times (the second component counts the calls made) and
raises `RuntimeError` naming the agent and the attempt count; a sequential
run containing that agent fails with that error — no partial result is
returned. -/
theorem c3_retry_exhaustion (agent : AgentW) (retry_limit : Nat)
    (h : ∀ inv n input, agent.call inv n input = none) :
    (∀ inv input ctx,
        execute_agent agent inv input ctx retry_limit =
          (Except.error ("Agent " ++ agent.id ++ " failed after " ++
            toString (retry_limit + 1) ++ " attempts"), retry_limit + 1)) ∧
      (∀ rest goal,
        sequential_execution (agent :: rest) goal retry_limit =
          Except.error ("Agent " ++ agent.id ++ " failed after " ++
            toString (retry_limit + 1) ++ " attempts")) := by
  have hexec : ∀ inv input ctx,
      execute_agent agent inv input ctx retry_limit =
        (Except.error ("Agent " ++ agent.id ++ " failed after " ++
          toString (retry_limit + 1) ++ " attempts"), retry_limit + 1) := by
    intro inv input ctx
    have := executeAgentAux_all_fail agent inv input ctx (retry_limit + 1)
      (fun n => h inv n input) (retry_limit + 1) 0 0
    simpa [execute_agent] using this
  refine ⟨hexec, ?_⟩
  intro rest goal
  show seqAux retry_limit [] goal (agent :: rest) = _
  rw [seqAux, hexec 0 goal ⟨"sequential", none⟩]

/-- Witness for C3: the spec's own example — an always-failing agent with
`retry_limit = 2` is attempted exactly 3 times and the error names the
agent and the count 3. -/
theorem c3_retry_exhaustion_witness :
    execute_agent ⟨"alpha", fun _ _ _ => none⟩ 0 "G" ⟨"sequential", none⟩ 2 =
      (Except.error ("Agent alpha failed after " ++ toString (2 + 1) ++ " attempts"),
        2 + 1) :=
  (c3_retry_exhaustion ⟨"alpha", fun _ _ _ => none⟩ 2 (fun _ _ _ => rfl)).1 0 "G"
    ⟨"sequential", none⟩

end Theorems

section Theorems2

open Orch

/-- An invocation whose first attempt succeeds returns the corresponding
log entry (no retry happens). -/
theorem execute_agent_first_success (agent : AgentW) (inv : Nat) (input : String)
    (ctx : Ctx) (retry_limit : Nat) (out : String)
    (h : agent.call inv 0 input = some out) :
    (execute_agent agent inv input ctx retry_limit).1 =
      Except.ok { agent_id := agent.id, output := out, context := ctx } := by
  show (executeAgentAux agent inv input ctx (retry_limit + 1) 0 (retry_limit + 1) 0).1 = _
  rw [executeAgentAux, h]

/-- The sequential loop, started from any accumulated log and current
input, refines the closed-form pipeline when every agent's first attempt
succeeds. -/
theorem seqAux_closed (retry_limit : Nat) (F : AgentW → String → String) :
    ∀ (agents : List AgentW), (∀ a ∈ agents, ∀ input, a.call 0 0 input = some (F a input)) →
      ∀ (logs : List LogEntry) (current_input : String),
        seqAux retry_limit logs current_input agents =
          Except.ok (logs ++ (seqPipeline F current_input agents).1,
            (seqPipeline F current_input agents).2) := by
  intro agents
  induction agents with
  | nil => intro _ logs current_input; simp [seqAux, seqPipeline]
  | cons a rest ih =>
    intro h logs current_input
    have ha := h a (List.mem_cons_self a rest) current_input
    have hrest : ∀ x ∈ rest, ∀ input, x.call 0 0 input = some (F x input) :=
      fun x hx => h x (List.mem_cons_of_mem a hx)
    rw [seqAux, execute_agent_first_success a 0 current_input ⟨"sequential", none⟩
      retry_limit (F a current_input) ha]
    show seqAux retry_limit (logs ++ [⟨a.id, F a current_input, ⟨"sequential", none⟩⟩])
      (F a current_input) rest = _
    have hih := ih hrest
      (logs ++ [⟨a.id, F a current_input, ⟨"sequential", none⟩⟩]) (F a current_input)
    rw [hih]
    simp [seqPipeline]

/-- The pipeline logs carry the agents' ids in declaration order. -/
theorem seqPipeline_map_id (F : AgentW → String → String) :
    ∀ (agents : List AgentW) (input : String),
      (seqPipeline F input agents).1.map LogEntry.agent_id = agents.map AgentW.id := by
  intro agents
  induction agents with
  | nil => intro input; simp [seqPipeline]
  | cons a rest ih => intro input; simp [seqPipeline, ih]

/-- Every pipeline log entry carries the sequential context. -/
theorem seqPipeline_context (F : AgentW → String → String) :
    ∀ (agents : List AgentW) (input : String),
      ∀ e ∈ (seqPipeline F input agents).1, e.context = ⟨"sequential", none⟩ := by
  intro agents
  induction agents with
  | nil => intro input e he; simp [seqPipeline] at he
  | cons a rest ih =>
    intro input e he
    rw [seqPipeline] at he
    rcases List.mem_cons.mp he with h | h
    · rw [h]
    · exact ih (F a input) e h

/-- The pipeline's final value is the last log entry's output (the input
when the agent list is empty). -/
theorem seqPipeline_last (F : AgentW → String → String) :
    ∀ (agents : List AgentW) (input : String),
      (seqPipeline F input agents).2 =
        (((seqPipeline F input agents).1.getLast?).map LogEntry.output).getD input := by
  intro agents
  induction agents with
  | nil => intro input; simp [seqPipeline]
  | cons a rest ih =>
    intro input
    cases rest with
    | nil => simp [seqPipeline]
    | cons b bs =>
      have hcons : ∃ e l, (seqPipeline F (F a input) (b :: bs)).1 = e :: l := by
        simp [seqPipeline]
      rcases hcons with ⟨e, l, hel⟩
      have := ih (F a input)
      rw [seqPipeline]
      simp only [hel] at this ⊢
      rw [List.getLast?_cons_cons]
      exact this

/-- Claim C1: in sequential mode, for every agent list and goal (with the
agents' underlying calls succeeding, producing output `F a input`), the run
equals the closed-form pipeline: agents run in declaration order, the first
receives the goal, each output becomes the next input, the final result is
the last agent's output, and the log has exactly one entry per agent, in
order, with context mode `sequential`. -/
theorem c1_sequential_pipeline (agents : List AgentW) (goal : String)
    (retry_limit : Nat) (F : AgentW → String → String)
    (h : ∀ a ∈ agents, ∀ input, a.call 0 0 input = some (F a input)) :
    sequential_execution agents goal retry_limit = Except.ok (seqPipeline F goal agents) ∧
      (seqPipeline F goal agents).1.map LogEntry.agent_id = agents.map AgentW.id ∧
      (∀ e ∈ (seqPipeline F goal agents).1, e.context = ⟨"sequential", none⟩) ∧
      (seqPipeline F goal agents).2 =
        (((seqPipeline F goal agents).1.getLast?).map LogEntry.output).getD goal := by
  refine ⟨?_, seqPipeline_map_id F agents goal, seqPipeline_context F agents goal,
    seqPipeline_last F agents goal⟩
  have := seqAux_closed retry_limit F agents h [] goal
  simpa [sequential_execution] using this

/-- Witness for C1: the spec's example — agents A, B, C returning "a", "b",
"c" on goal "G" produce final result "c" and exactly the three ordered
sequential log entries. -/
theorem c1_sequential_pipeline_witness :
    sequential_execution
        [⟨"A", fun _ _ _ => some "a"⟩, ⟨"B", fun _ _ _ => some "b"⟩,
          ⟨"C", fun _ _ _ => some "c"⟩] "G" 0 =
      Except.ok ([⟨"A", "a", ⟨"sequential", none⟩⟩, ⟨"B", "b", ⟨"sequential", none⟩⟩,
        ⟨"C", "c", ⟨"sequential", none⟩⟩], "c") := by
  have hmem : ∀ a ∈ ([⟨"A", fun _ _ _ => some "a"⟩, ⟨"B", fun _ _ _ => some "b"⟩,
      ⟨"C", fun _ _ _ => some "c"⟩] : List AgentW), ∀ input,
      a.call 0 0 input = some ((a.call 0 0 input).getD "") := by
    intro a ha input
    fin_cases ha <;> rfl
  have h := (c1_sequential_pipeline
    [⟨"A", fun _ _ _ => some "a"⟩, ⟨"B", fun _ _ _ => some "b"⟩,
      ⟨"C", fun _ _ _ => some "c"⟩] "G" 0
    (fun a input => (a.call 0 0 input).getD "") hmem).1
  exact h.trans rfl

end Theorems2


section Theorems3

open Orch

/-- A peer round in which every member's first attempt succeeds gathers
exactly the closed-form round log. -/
theorem peerGather_closed (F : AgentW → Nat → String → String)
    (t retry_limit : Nat) (shared : String) :
    ∀ (agents : List AgentW),
      (∀ a ∈ agents, a.call t 0 shared = some (F a t shared)) →
      peerGather t shared retry_limit agents =
        Except.ok (agents.map fun a => ⟨a.id, F a t shared, ⟨"peer", some (t + 1)⟩⟩) := by
  intro agents
  induction agents with
  | nil => intro _; rfl
  | cons a rest ih =>
    intro h
    have ha := h a (List.mem_cons_self a rest)
    have hrest := fun x hx => h x (List.mem_cons_of_mem a hx)
    rw [peerGather, execute_agent_first_success a t shared ⟨"peer", some (t + 1)⟩
      retry_limit _ ha, ih hrest]
    rfl

/-- The peer loop, started at iteration `t` on the closed-form shared input
of iteration `t`, appends one closed-form round per remaining iteration and
finishes on the closed-form shared value. -/
theorem peerAux_closed (F : AgentW → Nat → String → String) (goal : String)
    (retry_limit : Nat) (agents : List AgentW)
    (h : ∀ a ∈ agents, ∀ t input, a.call t 0 input = some (F a t input)) :
    ∀ (remaining t : Nat) (logs : List LogEntry),
      peerAux agents retry_limit t remaining (sharedAt F agents goal t) logs =
        Except.ok
          (logs ++ (List.range' t remaining).flatMap (peerRoundLog F agents goal),
            sharedAt F agents goal (t + remaining)) := by
  intro remaining
  induction remaining with
  | zero => intro t logs; simp [peerAux]
  | succ k ih =>
    intro t logs
    have hround := peerGather_closed F t retry_limit (sharedAt F agents goal t) agents
      (fun a ha => h a ha t (sharedAt F agents goal t))
    have hstep : peerAux agents retry_limit t (k + 1) (sharedAt F agents goal t) logs =
        peerAux agents retry_limit (t + 1) k
          (String.intercalate "\n"
            ((agents.map fun a =>
              (⟨a.id, F a t (sharedAt F agents goal t), ⟨"peer", some (t + 1)⟩⟩ :
                LogEntry)).map (fun result => result.output)))
          (logs ++ agents.map fun a =>
            ⟨a.id, F a t (sharedAt F agents goal t), ⟨"peer", some (t + 1)⟩⟩) := by
      rw [peerAux, hround]
    have hjoin :
        String.intercalate "\n"
            ((agents.map fun a =>
              (⟨a.id, F a t (sharedAt F agents goal t), ⟨"peer", some (t + 1)⟩⟩ :
                LogEntry)).map (fun result => result.output)) =
          sharedAt F agents goal (t + 1) := by
      rw [sharedAt, List.map_map]
      rfl
    rw [hstep, hjoin]
    have hih := ih (t + 1) (logs ++ (agents.map fun a =>
      ⟨a.id, F a t (sharedAt F agents goal t), ⟨"peer", some (t + 1)⟩⟩))
    rw [hih]
    have harith : t + 1 + k = t + (k + 1) := by omega
    rw [harith]
    have hrange : List.range' t (k + 1) = t :: List.range' (t + 1) k := List.range'_succ ..
    rw [hrange, List.flatMap_cons, List.append_assoc]
    rfl

/-- The peer log of `k` rounds over `n` agents has `k * n` entries. -/
theorem peerRoundLog_length (F : AgentW → Nat → String → String)
    (agents : List AgentW) (goal : String) :
    ∀ (k t : Nat),
      ((List.range' t k).flatMap (peerRoundLog F agents goal)).length =
        k * agents.length := by
  intro k
  induction k with
  | zero => intro t; simp
  | succ m ih =>
    intro t
    rw [List.range'_succ, List.flatMap_cons, List.length_append, ih (t + 1)]
    simp [peerRoundLog, Nat.succ_mul, Nat.add_comm]

/-- Claim C2: in peer mode, for every agent list, goal and iteration count
(with every member's underlying call succeeding, producing `F a t input` at
iteration `t`), the run equals the closed form: each iteration invokes all
agents on the same shared input (the goal at iteration 1), the outputs are
newline-joined in declaration order to become the next shared input, the
loop runs exactly `max_iterations` rounds, the final result is the last
joined string, and the log holds one entry per agent per iteration with the
1-based iteration number in its context. -/
theorem c2_peer_join (agents : List AgentW) (goal : String)
    (retry_limit max_iterations : Nat) (F : AgentW → Nat → String → String)
    (h : ∀ a ∈ agents, ∀ t input, a.call t 0 input = some (F a t input)) :
    peer_execution agents goal retry_limit max_iterations =
        Except.ok ((List.range max_iterations).flatMap (peerRoundLog F agents goal),
          sharedAt F agents goal max_iterations) ∧
      ((List.range max_iterations).flatMap (peerRoundLog F agents goal)).length =
        max_iterations * agents.length ∧
      (∀ e ∈ (List.range max_iterations).flatMap (peerRoundLog F agents goal),
        e.context.mode = "peer" ∧
          ∃ t, t < max_iterations ∧ e.context.iteration = some (t + 1)) ∧
      (1 ≤ max_iterations →
        sharedAt F agents goal max_iterations =
          String.intercalate "\n" (agents.map fun a =>
            F a (max_iterations - 1) (sharedAt F agents goal (max_iterations - 1)))) := by
  refine ⟨?_, ?_, ?_, ?_⟩
  · have := peerAux_closed F goal retry_limit agents h max_iterations 0 []
    simpa [peer_execution, List.range_eq_range'] using this
  · rw [List.range_eq_range']
    exact peerRoundLog_length F agents goal max_iterations 0
  · intro e he
    rcases List.mem_flatMap.mp he with ⟨t, ht, hmem⟩
    rcases List.mem_map.mp hmem with ⟨a, _, rfl⟩
    exact ⟨rfl, t, List.mem_range.mp ht, rfl⟩
  · intro hpos
    rcases Nat.exists_eq_add_of_le hpos with ⟨m, hm⟩
    subst hm
    rw [Nat.add_comm 1 m]
    rfl

/-- Witness for C2: the spec's example — peer agents X, Y with
`max_iterations = 2`; iteration 1 outputs x1, y1, joined as the shared
input of iteration 2; 4 log entries, 2 per iteration, numbered 1 and 2;
final result is the join of the last round. -/
theorem c2_peer_join_witness :
    peer_execution
        [⟨"X", fun t _ _ => some (if t = 0 then "x1" else "x2")⟩,
          ⟨"Y", fun t _ _ => some (if t = 0 then "y1" else "y2")⟩] "G" 0 2 =
      Except.ok ([⟨"X", "x1", ⟨"peer", some 1⟩⟩, ⟨"Y", "y1", ⟨"peer", some 1⟩⟩,
        ⟨"X", "x2", ⟨"peer", some 2⟩⟩, ⟨"Y", "y2", ⟨"peer", some 2⟩⟩], "x2\ny2") := by
  have hmem : ∀ a ∈ ([⟨"X", fun t _ _ => some (if t = 0 then "x1" else "x2")⟩,
      ⟨"Y", fun t _ _ => some (if t = 0 then "y1" else "y2")⟩] : List AgentW),
      ∀ t input, a.call t 0 input = some ((a.call t 0 input).getD "") := by
    intro a ha t input
    fin_cases ha <;> cases t <;> rfl
  have h := (c2_peer_join
    [⟨"X", fun t _ _ => some (if t = 0 then "x1" else "x2")⟩,
      ⟨"Y", fun t _ _ => some (if t = 0 then "y1" else "y2")⟩] "G" 0 2
    (fun a t input => (a.call t 0 input).getD "") hmem).1
  exact h.trans rfl

end Theorems3

section Theorems4

/-- A successful fallback run never returns a blank answer. -/
theorem run_single_agent_fallback_ok (fallback : Except String String) (s : String)
    (h : Models.run_single_agent_fallback fallback = Except.ok s) : pyStrip s ≠ "" := by
  cases fallback with
  | error e =>
    simp [Models.run_single_agent_fallback, Bind.bind, Except.bind] at h
  | ok out =>
    by_cases hout : pyStrip out = ""
    · simp [Models.run_single_agent_fallback, Bind.bind, Except.bind, hout] at h
    · simp [Models.run_single_agent_fallback, Bind.bind, Except.bind, hout] at h
      rw [← h]
      exact hout

/-- Claim C4 (amended): the Runner-based engine `runtime.run_workflow`
(including its capability-fallback path) never reports success with an
empty or whitespace-only final answer — a blank terminal output raises the
`completed without a final answer` error even when no lower-level exception
occurred.  (The dict-based coordinator engine lacks this check; see the
counterexample.) -/
theorem c4_empty_result_rejected_runtime (runner_result : Models.RunnerOutcome)
    (fallback : Except String String) (s : String)
    (h : Models.run_workflow runner_result fallback = Except.ok s) :
    pyStrip s ≠ "" := by
  cases runner_result with
  | ok out =>
    by_cases hout : pyStrip out = ""
    · simp [Models.run_workflow, hout] at h
    · simp [Models.run_workflow, hout] at h
      rw [← h]
      exact hout
  | notFoundError message =>
    by_cases hc : Models.is_tool_capability_error message
    · simp [Models.run_workflow, hc] at h
      exact run_single_agent_fallback_ok fallback s h
    · simp [Models.run_workflow, hc] at h
  | otherError message =>
    simp [Models.run_workflow] at h

/-- Witness for the amended C4: a run completing with output `answer`
succeeds and that answer is non-blank. -/
theorem c4_empty_result_rejected_runtime_witness :
    Models.run_workflow (Models.RunnerOutcome.ok "answer") (Except.ok "fb") =
        Except.ok "answer" ∧
      pyStrip "answer" ≠ "" :=
  ⟨rfl, c4_empty_result_rejected_runtime (Models.RunnerOutcome.ok "answer")
    (Except.ok "fb") "answer" rfl⟩

/-- Counterexample to C4 as stated: the coordinator's `run_workflow`
(`orchestrator/coordinator.py`) performs no emptiness check — a valid
two-agent sequential workflow whose agents both return `""` completes with
final result `""` reported as success (artifacts are then saved), instead
of raising an error. -/
theorem c4_counterexample_coordinator_accepts_empty :
    Orch.run_workflow
        ⟨some ⟨some "wf1", some "G", some "now"⟩,
          some [⟨some "A", "Agent A", "ia", [], [], none⟩,
            ⟨some "B", "Agent B", "ib", [], [], none⟩],
          some ⟨some "sequential", some 0, none⟩, [], []⟩
        (fun _ _ _ _ => some "") =
      Except.ok ([⟨"A", "", ⟨"sequential", none⟩⟩, ⟨"B", "", ⟨"sequential", none⟩⟩], "") ∧
    pyStrip "" = "" := ⟨rfl, rfl⟩

end Theorems4

section Theorems5

open Orch

/-- Claim C5 (amended): `validate_workflow` accumulates and returns the
errors of all four check groups — missing top-level fields, metadata
fields, the agents block, execution mode — so a violation in one group
never hides another group's; but within the agents block the id check
raises on the first missing or duplicate id, so at most one agent-id
violation is ever named. -/
theorem c5_validation_accumulates (w : WorkflowDict) :
    (validate_workflow w).2 =
        missingFieldErrors w ++ metadataErrors w ++ agentsErrors w ++ modeErrors w ∧
      ((validate_workflow w).1 = true ↔ (validate_workflow w).2 = []) ∧
      (agentsErrors w).length ≤ 1 ∧
      (∀ e ∈ missingFieldErrors w, e ∈ (validate_workflow w).2) ∧
      (∀ e ∈ metadataErrors w, e ∈ (validate_workflow w).2) ∧
      (∀ e ∈ agentsErrors w, e ∈ (validate_workflow w).2) ∧
      (∀ e ∈ modeErrors w, e ∈ (validate_workflow w).2) := by
  refine ⟨rfl, ?_, ?_, ?_, ?_, ?_, ?_⟩
  · simp [validate_workflow, List.length_eq_zero]
  · rw [agentsErrors]
    split
    · simp
    · split <;> simp
  · intro e he
    show e ∈ missingFieldErrors w ++ metadataErrors w ++ agentsErrors w ++ modeErrors w
    exact List.mem_append_left _ (List.mem_append_left _ (List.mem_append_left _ he))
  · intro e he
    show e ∈ missingFieldErrors w ++ metadataErrors w ++ agentsErrors w ++ modeErrors w
    exact List.mem_append_left _ (List.mem_append_left _ (List.mem_append_right _ he))
  · intro e he
    show e ∈ missingFieldErrors w ++ metadataErrors w ++ agentsErrors w ++ modeErrors w
    exact List.mem_append_left _ (List.mem_append_right _ he)
  · intro e he
    show e ∈ missingFieldErrors w ++ metadataErrors w ++ agentsErrors w ++ modeErrors w
    exact List.mem_append_right _ he

/-- Witness for the amended C5: a workflow violating three different
groups at once (blank metadata id, missing created_at, a single agent,
bad mode) has all of them named in the returned error list. -/
theorem c5_validation_accumulates_witness :
    "metadata.id is required" ∈
        (validate_workflow ⟨some ⟨some "", some "G", none⟩,
          some [⟨some "a", "N", "i", [], [], none⟩],
          some ⟨some "bogus", none, none⟩, [], []⟩).2 ∧
      "At least two agent definitions are required" ∈
        (validate_workflow ⟨some ⟨some "", some "G", none⟩,
          some [⟨some "a", "N", "i", [], [], none⟩],
          some ⟨some "bogus", none, none⟩, [], []⟩).2 ∧
      "execution.mode must be 'sequential' or 'peer'" ∈
        (validate_workflow ⟨some ⟨some "", some "G", none⟩,
          some [⟨some "a", "N", "i", [], [], none⟩],
          some ⟨some "bogus", none, none⟩, [], []⟩).2 :=
  ⟨(c5_validation_accumulates _).2.2.2.2.1 _ (by decide),
    (c5_validation_accumulates _).2.2.2.2.2.1 _ (by decide),
    (c5_validation_accumulates _).2.2.2.2.2.2 _ (by decide)⟩

/-- Counterexample to C5 as stated: with agents carrying ids `x`, a missing
id, and `x` again, both the missing-id rule and the duplicate-id rule are
violated (the id `x` occurs twice), yet the error list names only the
first violation found — the duplicate is not reported. -/
theorem c5_counterexample_first_id_error_only :
    validate_workflow ⟨some ⟨some "wf1", some "G", some "now"⟩,
        some [⟨some "x", "N1", "i1", [], [], none⟩, ⟨none, "N2", "i2", [], [], none⟩,
          ⟨some "x", "N3", "i3", [], [], none⟩],
        some ⟨some "sequential", none, none⟩, [], []⟩ =
      (false, ["Agent is missing an 'id'."]) ∧
    ((["x", "", "x"] : List String).count "x" = 2 ∧
      (["x", "", "x"] : List String) =
        ([⟨some "x", "N1", "i1", [], [], none⟩, ⟨none, "N2", "i2", [], [], none⟩,
          ⟨some "x", "N3", "i3", [], [], none⟩] : List AgentDict).map
          (fun a => a.id.getD "")) := by
  refine ⟨by decide, by decide, by decide⟩

end Theorems5

section Theorems6

open Models

/-- A list of all-non-final agents containing the entrypoint key, after the
promotion loop, has exactly one final agent: the first one keyed by the
entrypoint. -/
theorem promoteEntrypoint_filter (e : String) :
    ∀ (agents : List AgentSpec), (∀ a ∈ agents, a.final = false) →
      e ∈ agents.map AgentSpec.key →
      ((promoteEntrypoint e agents).filter AgentSpec.final).map AgentSpec.key = [e] := by
  intro agents
  induction agents with
  | nil => intro _ hmem; simp at hmem
  | cons a rest ih =>
    intro hall hmem
    have ha := hall a (List.mem_cons_self a rest)
    have hrest := fun x hx => hall x (List.mem_cons_of_mem a hx)
    by_cases hk : a.key = e
    · rw [promoteEntrypoint]
      rw [if_pos hk]
      have hfilter : rest.filter AgentSpec.final = [] := by
        rw [List.filter_eq_nil_iff]
        intro x hx
        simp [hrest x hx]
      simp [List.filter_cons, hfilter, hk]
    · rw [promoteEntrypoint, if_neg hk]
      have hmem2 : e ∈ rest.map AgentSpec.key := by
        rcases List.mem_cons.mp hmem with h | h
        · exact absurd h.symm hk
        · exact h
      rw [List.filter_cons_of_neg]
      · exact ih hrest hmem2
      · simp [ha]

/-- Claim C6: compiling a valid plan in which no agent is marked final
yields a specification with exactly one final agent, keyed by the plan's
entrypoint; a plan that already has a final agent is compiled with every
agent's `final` flag (and key) unchanged — no promotion occurs. -/
theorem c6_entrypoint_promotion (plan : WorkflowPlan)
    (prompt spec_id provider_model : String) (hvalid : plan.validatorOk) :
    ((∀ a ∈ plan.agents, a.final = false) →
        ((plan_to_spec plan prompt spec_id provider_model).agents.filter
          AgentSpec.final).map AgentSpec.key = [plan.entrypoint]) ∧
      ((∃ a ∈ plan.agents, a.final = true) →
        (plan_to_spec plan prompt spec_id provider_model).agents.map
            (fun a => (a.key, a.final)) =
          plan.agents.map (fun a => (a.key, a.final))) := by
  constructor
  · intro hnone
    have hall : ∀ a ∈ plan.agents.map plan_agent_to_spec, a.final = false := by
      intro a ha
      rcases List.mem_map.mp ha with ⟨p, hp, rfl⟩
      exact hnone p hp
    have hany : (plan.agents.map plan_agent_to_spec).any AgentSpec.final = false := by
      rw [List.any_eq_false]
      intro a ha
      simp [hall a ha]
    have hmem : plan.entrypoint ∈ (plan.agents.map plan_agent_to_spec).map AgentSpec.key := by
      rw [List.map_map]
      exact hvalid.2
    show ((if (plan.agents.map plan_agent_to_spec).any AgentSpec.final = true then
        plan.agents.map plan_agent_to_spec
      else promoteEntrypoint plan.entrypoint
        (plan.agents.map plan_agent_to_spec)).filter AgentSpec.final).map AgentSpec.key = _
    rw [hany]
    simp only [Bool.false_eq_true, if_false]
    exact promoteEntrypoint_filter plan.entrypoint (plan.agents.map plan_agent_to_spec)
      hall hmem
  · intro hsome
    rcases hsome with ⟨a, ha, hfin⟩
    have hany : (plan.agents.map plan_agent_to_spec).any AgentSpec.final = true := by
      rw [List.any_eq_true]
      exact ⟨plan_agent_to_spec a, List.mem_map_of_mem plan_agent_to_spec ha, by
        simp [plan_agent_to_spec, hfin]⟩
    show ((if (plan.agents.map plan_agent_to_spec).any AgentSpec.final = true then
        plan.agents.map plan_agent_to_spec
      else promoteEntrypoint plan.entrypoint
        (plan.agents.map plan_agent_to_spec)).map (fun a => (a.key, a.final))) = _
    rw [hany]
    simp only [if_true, List.map_map]
    rfl

/-- Witness for C6: a two-agent plan with no final agent and entrypoint `b`
compiles to a specification whose only final agent is keyed `b`. -/
theorem c6_entrypoint_promotion_witness :
    ((plan_to_spec ⟨"T", "S", "b", 18,
          [⟨"a", "A", "sa", "ia", [], false⟩, ⟨"b", "B", "sb", "ib", [], false⟩]⟩
        "P" "id1" "m").agents.filter AgentSpec.final).map AgentSpec.key = ["b"] :=
  (c6_entrypoint_promotion ⟨"T", "S", "b", 18,
      [⟨"a", "A", "sa", "ia", [], false⟩, ⟨"b", "B", "sb", "ib", [], false⟩]⟩
    "P" "id1" "m" (by constructor <;> decide)).1 (by decide)

end Theorems6

section Theorems8

open Models

/-- Claim C8 (amended): `python_repl` returns `""` for an empty or
whitespace-only snippet without consulting the parser or executor (rather
than rejecting it); a snippet that fails to parse raises the
`Invalid Python snippet` validation error and the executor is never
consulted; execution sees exactly the safe built-in whitelist (the result
depends on the executor only through its behaviour on `SAFE_BUILTINS`);
runtime errors propagate; and a snippet that does not assign `result`
yields the placeholder message, while an assigned `result` is returned. -/
theorem c8_python_repl_behaviour (interp : PyInterp) (code : String) :
    (pyStrip (dedent code) = "" → python_repl interp code = Except.ok "") ∧
      (∀ msg, pyStrip (dedent code) ≠ "" →
        interp.parse (pyStrip (dedent code)) = some msg →
        python_repl interp code = Except.error ("Invalid Python snippet: " ++ msg) ∧
          ∀ g : List String → String → Except String (List (String × String)),
            python_repl ⟨interp.parse, g⟩ code = python_repl interp code) ∧
      (∀ ns, pyStrip (dedent code) ≠ "" →
        interp.parse (pyStrip (dedent code)) = none →
        interp.exec SAFE_BUILTINS (pyStrip (dedent code)) = Except.ok ns →
        (alookup ns "result" = none →
            python_repl interp code =
              Except.ok "Snippet executed. Define `result` to provide an explicit answer.") ∧
          ∀ v, alookup ns "result" = some v → python_repl interp code = Except.ok v) ∧
      (∀ e, pyStrip (dedent code) ≠ "" →
        interp.parse (pyStrip (dedent code)) = none →
        interp.exec SAFE_BUILTINS (pyStrip (dedent code)) = Except.error e →
        python_repl interp code = Except.error e) ∧
      (∀ interp2 : PyInterp, interp2.parse = interp.parse →
        (∀ c, interp2.exec SAFE_BUILTINS c = interp.exec SAFE_BUILTINS c) →
        python_repl interp2 code = python_repl interp code) := by
  refine ⟨?_, ?_, ?_, ?_, ?_⟩
  · intro hempty
    simp [python_repl, hempty]
  · intro msg hne hparse
    constructor
    · simp [python_repl, hne, hparse]
    · intro g
      simp [python_repl, hne, hparse]
  · intro ns hne hparse hexec
    constructor
    · intro hnone
      simp [python_repl, hne, hparse, hexec, Bind.bind, Except.bind, hnone]
    · intro v hv
      simp [python_repl, hne, hparse, hexec, Bind.bind, Except.bind, hv]
  · intro e hne hparse hexec
    simp [python_repl, hne, hparse, hexec, Bind.bind, Except.bind]
  · intro interp2 hparse hexec
    by_cases hempty : pyStrip (dedent code) = ""
    · simp [python_repl, hempty]
    · cases hp : interp.parse (pyStrip (dedent code)) with
      | some msg => simp [python_repl, hempty, hparse, hp]
      | none => simp [python_repl, hempty, hparse, hp, hexec]

/-- Witness for the amended C8: a parsing snippet that does not assign
`result` returns the placeholder message. -/
theorem c8_python_repl_behaviour_witness :
    python_repl ⟨fun _ => none, fun _ _ => Except.ok [("x", "1")]⟩ "x = 1" =
      Except.ok "Snippet executed. Define `result` to provide an explicit answer." :=
  ((c8_python_repl_behaviour ⟨fun _ => none, fun _ _ => Except.ok [("x", "1")]⟩
      "x = 1").2.2.1 [("x", "1")] (by decide) rfl rfl).1 rfl

/-- Counterexample to C8 as stated: empty and whitespace-only snippets are
not rejected — even with a parser that rejects everything and an executor
that always raises, `python_repl` returns the empty string successfully,
with neither consulted. -/
theorem c8_counterexample_empty_input_not_rejected :
    python_repl ⟨fun _ => some "boom", fun _ _ => Except.error "never"⟩ "" =
        Except.ok "" ∧
      python_repl ⟨fun _ => some "boom", fun _ _ => Except.error "never"⟩ " \n\t " =
        Except.ok "" :=
  ⟨rfl, rfl⟩

end Theorems8

section Theorems9

open Orch

/-- A `mapM` over `Except` succeeds pointwise when every element maps to a
success. -/
theorem mapM_ok_of_forall {α β : Type} (f : α → Except String β) (g : α → β) :
    ∀ (l : List α), (∀ x ∈ l, f x = Except.ok (g x)) →
      l.mapM f = Except.ok (l.map g) := by
  intro l
  induction l with
  | nil => intro _; rfl
  | cons x rest ih =>
    intro h
    rw [List.mapM_cons, h x (List.mem_cons_self x rest),
      ih (fun y hy => h y (List.mem_cons_of_mem x hy))]
    rfl

/-- First-match association lookup over a keyed map hits the element's own
value when the keys are distinct. -/
theorem alookup_map_nodup {α β : Type} (key : α → String) (val : α → β) :
    ∀ (l : List α) (a : α), (l.map key).Nodup → a ∈ l →
      alookup (l.map fun x => (key x, val x)) (key a) = some (val a) := by
  intro l
  induction l with
  | nil => intro a _ ha; simp at ha
  | cons x rest ih =>
    intro a hnodup ha
    rw [List.map_cons, alookup]
    by_cases hk : key x = key a
    · rcases List.mem_cons.mp ha with rfl | hmem
      · simp
      · exfalso
        have hin : key a ∈ rest.map key := List.mem_map_of_mem key hmem
        rw [← hk] at hin
        exact (List.nodup_cons.mp (by simpa using hnodup)).1 hin
    · rw [if_neg hk]
      refine ih a (List.nodup_cons.mp (by simpa using hnodup)).2 ?_
      rcases List.mem_cons.mp ha with rfl | hmem
      · exact absurd rfl hk
      · exact hmem

/-- The tool comprehension of `create_agents` succeeds, yielding exactly
the catalog-filtered references, when every reference kept by the filter is
registered. -/
theorem resolveAgentTools_ok (cfg : List String) (agent_def : AgentDict)
    (h : ∀ n ∈ agent_def.tools, n ∈ cfg → n ∈ registryNames) :
    resolveAgentTools cfg agent_def.tools =
      Except.ok (resolvedToolsOf cfg agent_def) := by
  refine mapM_ok_of_forall _ _ _ ?_
  intro n hn
  have hmem := List.mem_filter.mp hn
  have hreg : n ∈ registryNames := h n hmem.1 (by simpa using hmem.2)
  simp [registryGet, hreg, Except.map]

/-- The memory comprehension of `create_agents` succeeds, yielding the
catalog-filtered references as fresh buffers, when all catalog entries are
short-term. -/
theorem resolveAgentMemory_ok (memory_configs : List MemoryDict) (agent_def : AgentDict)
    (h : ∀ m ∈ memory_configs, m.type = "short_term") :
    resolveAgentMemory memory_configs agent_def.memory =
      Except.ok (resolvedMemoryOf memory_configs agent_def) := by
  refine mapM_ok_of_forall _ _ _ ?_
  intro n hn
  have hmem := List.mem_filter.mp hn
  cases hfind : memory_configs.find? (fun m => m.name = n) with
  | none => rw [hfind] at hmem; simp at hmem
  | some entry =>
    have hentry : entry ∈ memory_configs := List.mem_of_find?_eq_some hfind
    have htype : entry.type = "short_term" := h entry hentry
    simp [hfind, instantiateMemoryEntry, htype, Except.map]

/-- One loop iteration of `create_agents` builds the closed-form wrapper. -/
theorem createAgent_ok (cfg : List String) (memory_configs : List MemoryDict)
    (agent_def : AgentDict)
    (htools : ∀ n ∈ agent_def.tools, n ∈ cfg → n ∈ registryNames)
    (hmems : ∀ m ∈ memory_configs, m.type = "short_term")
    (hid : agent_def.id.isSome) :
    createAgent cfg memory_configs agent_def =
      Except.ok (wrapperOf cfg memory_configs agent_def) := by
  rcases Option.isSome_iff_exists.mp hid with ⟨i, hi⟩
  rw [createAgent]
  rw [resolveAgentTools_ok cfg agent_def htools, resolveAgentMemory_ok memory_configs
    agent_def hmems]
  simp [hi, wrapperOf, Bind.bind, Except.bind]

/-- Claim C9: during `create_agents`, a tool name referenced by an agent
but absent from the workflow-level tool catalog is silently omitted — the
build succeeds, the agent exists, its resolved tool dictionary is exactly
the catalog-filtered reference list, and the unknown name is not in it. -/
theorem c9_unknown_tool_silently_omitted (w : WorkflowDict)
    (ags : List AgentDict) (agent_def : AgentDict) (tname : String)
    (hag : w.agents = some ags) (hmem : agent_def ∈ ags)
    (htool : tname ∈ agent_def.tools)
    (hnot : tname ∉ w.tools.map ToolDict.name)
    (hreg : ∀ a ∈ ags, ∀ n ∈ a.tools, n ∈ w.tools.map ToolDict.name → n ∈ registryNames)
    (hmems : ∀ m ∈ w.memory, m.type = "short_term")
    (hids : ∀ a ∈ ags, a.id.isSome)
    (hnodup : (ags.map (fun a => a.id.getD "")).Nodup) :
    create_agents w =
        Except.ok (ags.map fun a =>
          (a.id.getD "", wrapperOf (w.tools.map ToolDict.name) w.memory a)) ∧
      alookup (ags.map fun a =>
          (a.id.getD "", wrapperOf (w.tools.map ToolDict.name) w.memory a))
          (agent_def.id.getD "") =
        some (wrapperOf (w.tools.map ToolDict.name) w.memory agent_def) ∧
      (wrapperOf (w.tools.map ToolDict.name) w.memory agent_def).tools.map Prod.fst =
        agent_def.tools.filter (fun n => n ∈ w.tools.map ToolDict.name) ∧
      tname ∉
        (wrapperOf (w.tools.map ToolDict.name) w.memory agent_def).tools.map Prod.fst := by
  have hfilter :
      (wrapperOf (w.tools.map ToolDict.name) w.memory agent_def).tools.map Prod.fst =
        agent_def.tools.filter (fun n => n ∈ w.tools.map ToolDict.name) := by
    simp only [wrapperOf, resolvedToolsOf, List.map_map]
    have hcomp : (Prod.fst ∘ fun name : String => (name, ({ name := name } : ToolDefinition)))
        = id := rfl
    rw [hcomp, List.map_id]
  refine ⟨?_, ?_, hfilter, ?_⟩
  · rw [create_agents, hag]
    refine mapM_ok_of_forall _ _ _ ?_
    intro a ha
    rw [createAgent_ok _ _ a (hreg a ha) hmems (hids a ha)]
    rfl
  · exact alookup_map_nodup (fun a => a.id.getD "")
      (fun a => wrapperOf (w.tools.map ToolDict.name) w.memory a) ags agent_def
      hnodup hmem
  · rw [hfilter]
    intro hcontra
    exact hnot (by simpa using (List.mem_filter.mp hcontra).2)

end Theorems9

section Theorems9W

open Orch

/-- Witness for C9: agent `A` references `mystery` (not in the catalog) and
`web_search` (in the catalog); the build succeeds and `A`'s wrapper keeps
only `web_search`, silently dropping `mystery`. -/
theorem c9_unknown_tool_silently_omitted_witness :
    create_agents
        ⟨some ⟨some "wf", some "G", some "t"⟩,
          some [⟨some "A", "NA", "ia", ["mystery", "web_search"], [], none⟩,
            ⟨some "B", "NB", "ib", [], [], none⟩],
          some ⟨some "sequential", none, none⟩, [⟨"web_search", "web_search"⟩], []⟩ =
        Except.ok
          ([⟨some "A", "NA", "ia", ["mystery", "web_search"], [], none⟩,
            ⟨some "B", "NB", "ib", [], [], none⟩].map fun a =>
            (a.id.getD "", wrapperOf ["web_search"] [] a)) ∧
      "mystery" ∉
        (wrapperOf ["web_search"] []
          ⟨some "A", "NA", "ia", ["mystery", "web_search"], [], none⟩).tools.map
          Prod.fst :=
  ⟨(c9_unknown_tool_silently_omitted
      ⟨some ⟨some "wf", some "G", some "t"⟩,
        some [⟨some "A", "NA", "ia", ["mystery", "web_search"], [], none⟩,
          ⟨some "B", "NB", "ib", [], [], none⟩],
        some ⟨some "sequential", none, none⟩, [⟨"web_search", "web_search"⟩], []⟩
      [⟨some "A", "NA", "ia", ["mystery", "web_search"], [], none⟩,
        ⟨some "B", "NB", "ib", [], [], none⟩]
      ⟨some "A", "NA", "ia", ["mystery", "web_search"], [], none⟩ "mystery"
      rfl (by decide) (by decide) (by decide) (by decide) (by decide) (by decide)
      (by decide)).1,
    (c9_unknown_tool_silently_omitted
      ⟨some ⟨some "wf", some "G", some "t"⟩,
        some [⟨some "A", "NA", "ia", ["mystery", "web_search"], [], none⟩,
          ⟨some "B", "NB", "ib", [], [], none⟩],
        some ⟨some "sequential", none, none⟩, [⟨"web_search", "web_search"⟩], []⟩
      [⟨some "A", "NA", "ia", ["mystery", "web_search"], [], none⟩,
        ⟨some "B", "NB", "ib", [], [], none⟩]
      ⟨some "A", "NA", "ia", ["mystery", "web_search"], [], none⟩ "mystery"
      rfl (by decide) (by decide) (by decide) (by decide) (by decide) (by decide)
      (by decide)).2.2.2⟩

end Theorems9W


section Theorems7a

open Models

/-- A key present among an association list's keys has a binding. -/
theorem alookup_isSome_of_mem {β : Type} :
    ∀ (l : List (String × β)) (k : String), k ∈ l.map Prod.fst →
      ∃ v, alookup l k = some v := by
  intro l
  induction l with
  | nil => intro k hk; simp at hk
  | cons e rest ih =>
    obtain ⟨a, v⟩ := e
    intro k hk
    rw [List.map_cons] at hk
    by_cases he : a = k
    · exact ⟨v, by rw [alookup, if_pos he]⟩
    · rcases List.mem_cons.mp hk with h | h
      · exact absurd h.symm he
      · rcases ih k h with ⟨w, hw⟩
        exact ⟨w, by rw [alookup, if_neg he, hw]⟩

/-- A key absent from an association list's keys has no binding. -/
theorem alookup_eq_none_of_not_mem {β : Type} :
    ∀ (l : List (String × β)) (k : String), k ∉ l.map Prod.fst →
      alookup l k = none := by
  intro l
  induction l with
  | nil => intro k _; rfl
  | cons e rest ih =>
    obtain ⟨a, v⟩ := e
    intro k hk
    have h1 : a ≠ k := fun h => hk (by simp [h])
    rw [alookup, if_neg h1]
    exact ih k (fun h => hk (by simp [h]))

/-- Unfolding of `updateAgent` on a cons cell. -/
theorem updateAgent_cons (a : String) (v : RAgent) (rest : List (String × RAgent))
    (j : String) (f : RAgent → RAgent) :
    updateAgent ((a, v) :: rest) j f =
      (if a = j then (a, f v) else (a, v)) :: updateAgent rest j f := by
  by_cases h : a = j <;> simp [updateAgent, h]

/-- Updating via `updateAgent` does not change the key sequence. -/
theorem updateAgent_map_fst (f : RAgent → RAgent) :
    ∀ (A : List (String × RAgent)) (j : String),
      (updateAgent A j f).map Prod.fst = A.map Prod.fst := by
  intro A
  induction A with
  | nil => intro j; rfl
  | cons e rest ih =>
    obtain ⟨a, v⟩ := e
    intro j
    rw [updateAgent_cons]
    by_cases h : a = j <;> simp [h, ih j]

/-- Lookup after `updateAgent`: the updated key's binding is transformed,
every other binding is unchanged. -/
theorem alookup_updateAgent (f : RAgent → RAgent) :
    ∀ (A : List (String × RAgent)) (j k : String),
      alookup (updateAgent A j f) k =
        if j = k then (alookup A k).map f else alookup A k := by
  intro A
  induction A with
  | nil => intro j k; by_cases hj : j = k <;> simp [updateAgent, alookup, hj]
  | cons e rest ih =>
    obtain ⟨a, v⟩ := e
    intro j k
    rw [updateAgent_cons]
    by_cases haj : a = j
    · by_cases hak : a = k
      · have hjk : j = k := by rw [← haj, hak]
        rw [if_pos haj, alookup, if_pos hak, if_pos hjk, alookup, if_pos hak]
        rfl
      · have hjk : j ≠ k := fun h => hak (by rw [haj, h])
        rw [if_pos haj, alookup, if_neg hak, if_neg hjk, alookup, if_neg hak]
        have := ih j k
        rw [if_neg hjk] at this
        exact this
    · by_cases hak : a = k
      · have hjk : j ≠ k := fun h => haj (by rw [h, hak])
        rw [if_neg haj, alookup, if_pos hak, if_neg hjk, alookup, if_pos hak]
      · rw [if_neg haj, alookup, if_neg hak]
        have := ih j k
        by_cases hjk : j = k
        · rw [if_pos hjk] at this ⊢
          rw [this, alookup, if_neg hak]
        · rw [if_neg hjk] at this ⊢
          rw [this, alookup, if_neg hak]

end Theorems7a

section Theorems7b

open Models

/-- Evaluating `build_base_tools` on a validator-passing tool spec: closed form of the
immediate tools and deferred bindings it contributes. -/
theorem build_base_tools_ok (t : ToolSpec) (h : t.validatorOk) :
    build_base_tools t = Except.ok ⟨immediateTools [t], deferredPairs [t]⟩ := by
  cases hk : t.kind with
  | web_search => simp [build_base_tools, immediateTools, deferredPairs, hk]
  | python_repl => simp [build_base_tools, immediateTools, deferredPairs, hk]
  | agent_tool =>
    have htarget : t.target_agent.getD "" ≠ "" := h hk
    simp [build_base_tools, immediateTools, deferredPairs, hk, htarget]

/-- The per-agent tool loop of pass one: closed form under passing
validators. -/
theorem buildAgentTools_ok :
    ∀ (tool_specs : List ToolSpec), (∀ t ∈ tool_specs, t.validatorOk) →
      buildAgentTools tool_specs =
        Except.ok (immediateTools tool_specs, deferredPairs tool_specs) := by
  intro tool_specs
  induction tool_specs with
  | nil => intro _; rfl
  | cons t rest ih =>
    intro h
    rw [buildAgentTools, build_base_tools_ok t (h t (List.mem_cons_self t rest)),
      ih (fun x hx => h x (List.mem_cons_of_mem t hx))]
    show Except.ok _ = _
    have h1 : immediateTools [t] ++ immediateTools rest = immediateTools (t :: rest) := by
      simp [immediateTools]
    have h2 : deferredPairs [t] ++ deferredPairs rest = deferredPairs (t :: rest) := by
      simp [deferredPairs, List.filter_cons]
      by_cases hk : t.kind = ToolKind.agent_tool <;> simp [hk]
    rw [h1, h2]

/-- Pass one of `build_agents`: closed form — one runtime agent per spec in
declaration order, plus the owner-tagged deferred bindings. -/
theorem buildAgentsPass1_ok (provider_model : String) :
    ∀ (agents : List AgentSpec), (∀ s ∈ agents, ∀ t ∈ s.tools, t.validatorOk) →
      buildAgentsPass1 provider_model agents =
        Except.ok (agents.map (fun s => (s.key, agentOf provider_model s)),
          deferredOf agents) := by
  intro agents
  induction agents with
  | nil => intro _; rfl
  | cons s rest ih =>
    intro h
    rw [buildAgentsPass1, buildAgentTools_ok s.tools (h s (List.mem_cons_self s rest)),
      ih (fun x hx => h x (List.mem_cons_of_mem s hx))]
    show Except.ok _ = _
    simp [agentOf, deferredOf]

/-- Every deferred binding's owner key is a declared agent key. -/
theorem deferredOf_owner_mem (agents : List AgentSpec) :
    ∀ d ∈ deferredOf agents, d.1 ∈ agents.map AgentSpec.key := by
  intro d hd
  rcases List.mem_flatMap.mp hd with ⟨s, hs, hmem⟩
  rcases List.mem_map.mp hmem with ⟨p, _, rfl⟩
  exact List.mem_map_of_mem AgentSpec.key hs

/-- Membership characterization of the deferred-binding list. -/
theorem deferredOf_mem_iff (agents : List AgentSpec)
    (d : String × ToolSpec × String) :
    d ∈ deferredOf agents ↔
      ∃ s ∈ agents, ∃ t ∈ s.tools, t.kind = ToolKind.agent_tool ∧
        d = (s.key, t, t.target_agent.getD "") := by
  constructor
  · intro hd
    rcases List.mem_flatMap.mp hd with ⟨s, hs, hmem⟩
    rcases List.mem_map.mp hmem with ⟨p, hp, rfl⟩
    rcases List.mem_map.mp hp with ⟨t, ht, rfl⟩
    have := List.mem_filter.mp ht
    exact ⟨s, hs, t, this.1, by simpa using this.2, rfl⟩
  · rintro ⟨s, hs, t, ht, hkind, rfl⟩
    refine List.mem_flatMap.mpr ⟨s, hs, ?_⟩
    refine List.mem_map.mpr ⟨(t, t.target_agent.getD ""), ?_, rfl⟩
    refine List.mem_map.mpr ⟨t, ?_, rfl⟩
    exact List.mem_filter.mpr ⟨ht, by simpa using hkind⟩

end Theorems7b

section Theorems7c

open Models

/-- Pass two fails with the lookup error as soon as some deferred binding's
target key is missing from the agent map; the failure happens during graph
construction, before any execution. -/
theorem buildAgentsPass2_error :
    ∀ (D : List (String × ToolSpec × String)) (A : List (String × RAgent)),
      (∃ d ∈ D, d.2.2 ∉ A.map Prod.fst) →
      ∃ target_key, target_key ∉ A.map Prod.fst ∧
        buildAgentsPass2 D A =
          Except.error ("Agent tool target '" ++ target_key ++
            "' is missing from the specification.") := by
  intro D
  induction D with
  | nil => intro A h; rcases h with ⟨d, hd, _⟩; simp at hd
  | cons d0 rest ih =>
    obtain ⟨owner_key, tool_spec, target_key⟩ := d0
    intro A h
    by_cases h0 : target_key ∈ A.map Prod.fst
    · rcases alookup_isSome_of_mem A target_key h0 with ⟨targ, htarg⟩
      rw [buildAgentsPass2, htarg]
      have hrest : ∃ d ∈ rest,
          d.2.2 ∉ (updateAgent A owner_key
            (fun owner => attach_agent_tools owner tool_spec targ)).map Prod.fst := by
        rcases h with ⟨d, hd, hdnot⟩
        rcases List.mem_cons.mp hd with rfl | hdrest
        · exact absurd h0 hdnot
        · exact ⟨d, hdrest, by
            rw [updateAgent_map_fst]
            exact hdnot⟩
      rcases ih _ hrest with ⟨tk, htk, heq⟩
      rw [updateAgent_map_fst] at htk
      exact ⟨tk, htk, heq⟩
    · refine ⟨target_key, h0, ?_⟩
      rw [buildAgentsPass2, alookup_eq_none_of_not_mem A target_key h0]

/-- Pass two, given owner keys in the map and all target keys present,
succeeds; keys are preserved, every agent keeps its name and tools
(possibly extended), and every deferred binding's agent-as-tool wrapper —
named from the target's display name — ends up attached to its owner. -/
theorem buildAgentsPass2_ok :
    ∀ (D : List (String × ToolSpec × String)) (A : List (String × RAgent)),
      (∀ d ∈ D, d.1 ∈ A.map Prod.fst) →
      (∀ d ∈ D, d.2.2 ∈ A.map Prod.fst) →
      ∃ M, buildAgentsPass2 D A = Except.ok M ∧
        M.map Prod.fst = A.map Prod.fst ∧
        (∀ k a, alookup A k = some a → ∃ a2, alookup M k = some a2 ∧
          a2.name = a.name ∧ ∀ tool ∈ a.tools, tool ∈ a2.tools) ∧
        (∀ d ∈ D, ∃ targ owner2, alookup A d.2.2 = some targ ∧
          alookup M d.1 = some owner2 ∧
          Tool.agentAsTool (wrapperToolName d.2.1 targ.name)
            (wrapperToolDescription d.2.1 targ.name) ∈ owner2.tools) := by
  intro D
  induction D with
  | nil =>
    intro A _ _
    refine ⟨A, rfl, rfl, ?_, ?_⟩
    · intro k a ha
      exact ⟨a, ha, rfl, fun tool ht => ht⟩
    · intro d hd; simp at hd
  | cons d0 rest ih =>
    obtain ⟨owner_key, tool_spec, target_key⟩ := d0
    intro A howner htarget
    have h0 : target_key ∈ A.map Prod.fst :=
      htarget _ (List.mem_cons_self _ rest)
    rcases alookup_isSome_of_mem A target_key h0 with ⟨targ, htarg⟩
    have hown0 : owner_key ∈ A.map Prod.fst :=
      howner _ (List.mem_cons_self _ rest)
    rcases alookup_isSome_of_mem A owner_key hown0 with ⟨own, hown⟩
    rw [buildAgentsPass2, htarg]
    set A2 := updateAgent A owner_key
      (fun owner => attach_agent_tools owner tool_spec targ) with hA2
    have hfst2 : A2.map Prod.fst = A.map Prod.fst := updateAgent_map_fst _ A owner_key
    have hlook2 : ∀ k, alookup A2 k =
        if owner_key = k then (alookup A k).map
          (fun owner => attach_agent_tools owner tool_spec targ)
        else alookup A k := fun k => alookup_updateAgent _ A owner_key k
    rcases ih A2
      (fun d hd => by rw [hfst2]; exact howner d (List.mem_cons_of_mem _ hd))
      (fun d hd => by rw [hfst2]; exact htarget d (List.mem_cons_of_mem _ hd)) with
      ⟨M, hM, hMfst, hMmono, hMbind⟩
    have hmonoA : ∀ k a, alookup A k = some a → ∃ a2, alookup M k = some a2 ∧
        a2.name = a.name ∧ ∀ tool ∈ a.tools, tool ∈ a2.tools := by
      intro k a ha
      by_cases hk : owner_key = k
      · have h2 : alookup A2 k = some (attach_agent_tools a tool_spec targ) := by
          rw [hlook2 k, if_pos hk, ha]
          rfl
        rcases hMmono k _ h2 with ⟨a2, ha2, hname, htools⟩
        refine ⟨a2, ha2, by rw [hname]; rfl, ?_⟩
        intro tool ht
        exact htools tool (by
          show tool ∈ a.tools ++ _
          exact List.mem_append_left _ ht)
      · have h2 : alookup A2 k = some a := by rw [hlook2 k, if_neg hk, ha]
        exact hMmono k a h2
    refine ⟨M, hM, by rw [hMfst, hfst2], hmonoA, ?_⟩
    intro d hd
    rcases List.mem_cons.mp hd with rfl | hdrest
    · refine ⟨targ, ?_⟩
      have h2 : alookup A2 owner_key =
          some (attach_agent_tools own tool_spec targ) := by
        rw [hlook2 owner_key, if_pos rfl, hown]
        rfl
      rcases hMmono owner_key _ h2 with ⟨o2, ho2, _, htools⟩
      refine ⟨o2, htarg, ho2, ?_⟩
      refine htools _ ?_
      show _ ∈ own.tools ++ [Tool.agentAsTool _ _]
      exact List.mem_append_right _ (List.mem_singleton.mpr rfl)
    · rcases hMbind d hdrest with ⟨targ2, o2, htarg2, ho2, hwrap⟩
      by_cases hk : owner_key = d.2.2
      · have hupd := hlook2 d.2.2
        rw [if_pos hk] at hupd
        rw [hupd] at htarg2
        cases halook : alookup A d.2.2 with
        | none =>
          rw [halook] at htarg2
          simp at htarg2
        | some t0 =>
          rw [halook] at htarg2
          simp only [Option.map_some'] at htarg2
          have ht2 := Option.some.inj htarg2
          have hname : targ2.name = t0.name := by rw [← ht2]; rfl
          rw [hname] at hwrap
          exact ⟨t0, o2, rfl, ho2, hwrap⟩
      · have hupd := hlook2 d.2.2
        rw [if_neg hk] at hupd
        rw [hupd] at htarg2
        exact ⟨targ2, o2, htarg2, ho2, hwrap⟩

end Theorems7c

section Theorems7d

open Models

/-- Claim C7: building the agent graph from a specification whose tool
validators pass: if some `agent_tool` names a `target_agent` that is not a
declared agent key, `build_agents` fails during the second (deferred
binding) pass with the `KeyError` lookup message naming a missing key —
before any execution; if every target key is declared, the build succeeds
and each owner agent carries the callable agent-as-tool wrapper derived
from its target. -/
theorem c7_agent_tool_binding (spec : WorkflowSpec) (provider_model : String)
    (hvalid : ∀ a ∈ spec.agents, ∀ t ∈ a.tools, t.validatorOk) :
    ((∃ a ∈ spec.agents, ∃ t ∈ a.tools, t.kind = ToolKind.agent_tool ∧
        t.target_agent.getD "" ∉ spec.agents.map AgentSpec.key) →
      ∃ target_key, target_key ∉ spec.agents.map AgentSpec.key ∧
        build_agents spec provider_model =
          Except.error ("Agent tool target '" ++ target_key ++
            "' is missing from the specification.")) ∧
      ((∀ a ∈ spec.agents, ∀ t ∈ a.tools, t.kind = ToolKind.agent_tool →
          t.target_agent.getD "" ∈ spec.agents.map AgentSpec.key) →
        ∃ M, build_agents spec provider_model = Except.ok M ∧
          ∀ a ∈ spec.agents, ∀ t ∈ a.tools, t.kind = ToolKind.agent_tool →
            ∃ targ owner,
              alookup (spec.agents.map fun s => (s.key, agentOf provider_model s))
                  (t.target_agent.getD "") = some targ ∧
                alookup M a.key = some owner ∧
                Tool.agentAsTool (wrapperToolName t targ.name)
                  (wrapperToolDescription t targ.name) ∈ owner.tools) := by
  have hpass1 := buildAgentsPass1_ok provider_model spec.agents hvalid
  have hAfst : (spec.agents.map fun s => (s.key, agentOf provider_model s)).map
      Prod.fst = spec.agents.map AgentSpec.key := by
    rw [List.map_map]
    rfl
  have hba : build_agents spec provider_model =
      buildAgentsPass2 (deferredOf spec.agents)
        (spec.agents.map fun s => (s.key, agentOf provider_model s)) := by
    rw [build_agents, hpass1]
    rfl
  constructor
  · rintro ⟨a, ha, t, ht, hkind, hnot⟩
    have hd : (a.key, t, t.target_agent.getD "") ∈ deferredOf spec.agents :=
      (deferredOf_mem_iff spec.agents _).mpr ⟨a, ha, t, ht, hkind, rfl⟩
    rcases buildAgentsPass2_error (deferredOf spec.agents)
        (spec.agents.map fun s => (s.key, agentOf provider_model s))
        ⟨(a.key, t, t.target_agent.getD ""), hd, by rw [hAfst]; exact hnot⟩ with
      ⟨tk, htk, herr⟩
    rw [hAfst] at htk
    exact ⟨tk, htk, by rw [hba]; exact herr⟩
  · intro htargets
    have howner : ∀ d ∈ deferredOf spec.agents, d.1 ∈
        (spec.agents.map fun s => (s.key, agentOf provider_model s)).map Prod.fst := by
      intro d hd
      rw [hAfst]
      exact deferredOf_owner_mem spec.agents d hd
    have htarget : ∀ d ∈ deferredOf spec.agents, d.2.2 ∈
        (spec.agents.map fun s => (s.key, agentOf provider_model s)).map Prod.fst := by
      intro d hd
      rcases (deferredOf_mem_iff spec.agents d).mp hd with ⟨s, hs, t, ht, hkind, rfl⟩
      rw [hAfst]
      exact htargets s hs t ht hkind
    rcases buildAgentsPass2_ok (deferredOf spec.agents)
        (spec.agents.map fun s => (s.key, agentOf provider_model s))
        howner htarget with ⟨M, hM, _, _, hbind⟩
    refine ⟨M, by rw [hba]; exact hM, ?_⟩
    intro a ha t ht hkind
    have hd : (a.key, t, t.target_agent.getD "") ∈ deferredOf spec.agents :=
      (deferredOf_mem_iff spec.agents _).mpr ⟨a, ha, t, ht, hkind, rfl⟩
    rcases hbind _ hd with ⟨targ, owner2, htarg, hown, hwrap⟩
    exact ⟨targ, owner2, htarg, hown, hwrap⟩

/-- Witness for C7: agent `a` holds an `agent_tool` targeting the declared
agent `b`; the graph builds and `a` carries the `ask_b` wrapper delegating
to `b`. -/
theorem c7_agent_tool_binding_witness :
    ∃ M, build_agents
        ⟨⟨"id1", "T", "S", "P", "m"⟩,
          [⟨"a", "A", "sa", "ia", none, none,
            [⟨ToolKind.agent_tool, "Ask B", "ask_b", some "b"⟩], false⟩,
            ⟨"b", "B", "sb", "ib", none, none, [], false⟩],
          ⟨"a", 18⟩⟩ "m" = Except.ok M ∧
      ∀ a ∈ ([⟨"a", "A", "sa", "ia", none, none,
            [⟨ToolKind.agent_tool, "Ask B", "ask_b", some "b"⟩], false⟩,
            ⟨"b", "B", "sb", "ib", none, none, [], false⟩] : List AgentSpec),
        ∀ t ∈ a.tools, t.kind = ToolKind.agent_tool →
          ∃ targ owner,
            alookup (([⟨"a", "A", "sa", "ia", none, none,
                [⟨ToolKind.agent_tool, "Ask B", "ask_b", some "b"⟩], false⟩,
                ⟨"b", "B", "sb", "ib", none, none, [], false⟩] :
                  List AgentSpec).map fun s => (s.key, agentOf "m" s))
                (t.target_agent.getD "") = some targ ∧
              alookup M a.key = some owner ∧
              Tool.agentAsTool (wrapperToolName t targ.name)
                (wrapperToolDescription t targ.name) ∈ owner.tools :=
  (c7_agent_tool_binding
    ⟨⟨"id1", "T", "S", "P", "m"⟩,
      [⟨"a", "A", "sa", "ia", none, none,
        [⟨ToolKind.agent_tool, "Ask B", "ask_b", some "b"⟩], false⟩,
        ⟨"b", "B", "sb", "ib", none, none, [], false⟩],
      ⟨"a", 18⟩⟩ "m"
    (by intro a ha t ht; fin_cases ha <;> simp_all [ToolSpec.validatorOk]) ).2
    (by intro a ha t ht hk; fin_cases ha <;> simp_all)

end Theorems7d
